import Mathlib

/-!
Verification of the network-specialization library
(`src/core/subgraph_specializer.py`).

Modelling conventions (shallow embedding):

* Edge weights of the adjacency matrix are natural numbers (the
  specialization model treats weights as integer multiplicities; `int(...)`
  truncation in the source is then exact).  An adjacency matrix is a total
  function `ℕ → ℕ → ℕ` together with the node count `n`; entries outside
  `[0, n)²` are irrelevant and kept at `0` by all constructions here.
* Node states in the dynamics are rationals `ℚ`.
* Python `dict`s are association lists `List (key × value)`; insertion
  order is the list order and later bindings shadow earlier ones, exactly
  as building a `dict` from a sequence of pairs does.  `pyGet` is `d[k]`
  (returning `none` where Python raises `KeyError`).
* Python exceptions are modelled with `Except Err`; `Err.valueError`
  is `ValueError`, `Err.keyError` is `KeyError`, `Err.indexError` is
  `IndexError`, `Err.typeError` is `TypeError`.
* A `base` argument of `specialize` is a heterogeneous Python list whose
  elements are strings or ints: `List Ident`.
* `specialize` mutates `self` (it reassigns `self.A`, `self.labels`,
  `self.labeler`, `self.indexer`) and then returns a fresh `Graph`; the
  embedding returns the pair (returned graph, state of `self` after the
  call).
-/

namespace NetSpec

/-- Python exception classes raised by the code under analysis. -/
inductive Err where
  | valueError (msg : String)
  | keyError
  | indexError
  | typeError
deriving DecidableEq, Repr

/-- An element of the `base` argument of `specialize`: a node label
(a Python `str`) or a node index (a Python `int`). -/
inductive Ident where
  | lab (s : String)
  | idx (i : ℕ)
deriving DecidableEq, Repr

/-- A Python value as far as the constructor's label validation is
concerned: a string, or anything that is not a string. -/
inductive PyVal where
  | str (s : String)
  | nonstr
deriving DecidableEq, Repr

/-- Lookup in a Python dict represented as an association list with
later bindings shadowing earlier ones (`d[k]`, `none` = `KeyError`). -/
def pyGet [DecidableEq α] (d : List (α × β)) (k : α) : Option β :=
  match d with
  | [] => none
  | p :: rest =>
    match pyGet rest k with
    | some v => some v
    | none => if p.1 = k then some p.2 else none

/-- Association list `dict(zip(range(s, s+len(ls)), ls))`:
index-to-value pairs starting at key `s`. -/
def zipIdxFrom (s : ℕ) : List β → List (ℕ × β)
  | [] => []
  | b :: bs => (s, b) :: zipIdxFrom (s + 1) bs

/-- Association list `dict(zip(ls, range(s, s+len(ls))))`:
value-to-index pairs starting at index `s`. -/
def zipValIdx [DecidableEq α] (s : ℕ) : List α → List (α × ℕ)
  | [] => []
  | a :: as' => (a, s) :: zipValIdx (s + 1) as'

/-- Monadic map over a list in the `Except` monad, evaluating left to
right and stopping at the first failure (a Python `for` loop whose body
may raise). -/
def exMapM (f : α → Except Err β) : List α → Except Err (List β)
  | [] => .ok []
  | a :: as' => do
    let b ← f a
    let bs ← exMapM f as'
    .ok (b :: bs)

/-- The sparse graph object of the source: adjacency `A` (with `A i j`
the weight of the edge from node `j` to node `i`), node count `n`,
label list, the `labeler`/`indexer` dicts, the `origin` dict mapping
canonical labels to indices of the unexpanded functional matrix, and the
optional functional matrix `F` (entry `F o_i o_j` is the coupling
function; `none` means linear dynamics). -/
structure Graph where
  n : ℕ
  A : ℕ → ℕ → ℕ
  labels : List String
  labeler : List (ℕ × String)
  indexer : List (String × ℕ)
  origin : List (String × ℕ)
  F : Option (ℕ → ℕ → ℚ → ℚ)

/-- Validation of the `labels` argument in `Graph.__init__` (source
lines 49-58) over an arbitrary Python list.  The source tests
`type(labels) != list or len(labels) != n or type(labels[0]) != str`
with short-circuit `or`; only the FIRST element's type is inspected, and
`labels[0]` on an empty list raises `IndexError`.  (`labels` is always a
Lean list here, so the `type(labels) != list` disjunct is vacuous.) -/
def labelsArgCheck (labels : Option (List PyVal)) (n : ℕ) : Except Err Unit :=
  match labels with
  | none => .ok ()
  | some ls =>
    if ls.length ≠ n then .error (.valueError "labels must be a string list of length n")
    else
      match ls with
      | [] => .error .indexError
      | PyVal.str _ :: _ => .ok ()
      | PyVal.nonstr :: _ => .error (.valueError "labels must be a string list of length n")

/-- The constructor `Graph.__init__` (source lines 29-74), specialised to
string label lists (the only case the rest of the system produces; the
heterogeneous validation is `labelsArgCheck`).  Default labels are
`str(i)` for `i < n`; `labeler = dict(zip(arange(n), labels))`,
`indexer = dict(zip(labels, arange(n)))`; `origin` defaults to the
indexer whenever the passed dict is absent or empty (`if origin:`). -/
def graphInit (n : ℕ) (A : ℕ → ℕ → ℕ) (labels? : Option (List String))
    (F : Option (ℕ → ℕ → ℚ → ℚ)) (origin? : Option (List (String × ℕ))) :
    Except Err Graph := do
  let labels ← match labels? with
    | none => pure ((List.range n).map (fun i => toString i))
    | some ls =>
      if ls.length ≠ n then throw (Err.valueError "labels must be a string list of length n")
      else
        match ls with
        | [] => throw Err.indexError
        | _ :: _ => pure ls
  let indexer := zipValIdx 0 labels
  let origin := match origin? with
    | some o => if o = [] then indexer else o
    | none => indexer
  pure { n := n, A := A, labels := labels, labeler := zipIdxFrom 0 labels,
         indexer := indexer, origin := origin, F := F }

/-- Canonical label: the prefix of a label before its first `'.'`
(source lines 195-200: `label.find('.')` then slicing). -/
def stripDot (s : String) : String :=
  String.mk (s.data.takeWhile (fun c => c ≠ '.'))

/-- The method `Graph.original` (source lines 184-201): look up the
label of index `i`, strip everything from the first `'.'` on, and
resolve the canonical label through `origin`. -/
def original (g : Graph) (i : ℕ) : Except Err ℕ :=
  match pyGet g.labeler i with
  | none => .error .keyError
  | some label =>
    match pyGet g.origin (stripDot label) with
    | none => .error .keyError
    | some o => .ok o

/-- Structural well-formedness of a graph as produced by the
constructor: the label list has length `n`, the two registry dicts are
the zips the constructor builds, and `origin` is non-empty. -/
def WF (g : Graph) : Prop :=
  g.labels.length = g.n ∧ g.labeler = zipIdxFrom 0 g.labels ∧
    g.indexer = zipValIdx 0 g.labels ∧ g.origin ≠ []

instance (g : Graph) : Decidable (WF g) := by
  unfold WF; infer_instance

/-! ### The specializer (`Graph.specialize`, source lines 99-182) -/

/-- Conversion of one element of a label-typed `base` list (source lines
113-115: `base[i] = self.indexer[k]`).  The loop body indexes the
`indexer` dict with the element itself, so a non-string element in a
list whose first element is a string raises `KeyError` (the dict's keys
are strings), as does an unknown label. -/
def toIndex (g : Graph) : Ident → Except Err Ident
  | .lab s =>
    match pyGet g.indexer s with
    | some i => .ok (.idx i)
    | none => .error .keyError
  | .idx _ => .error .keyError

/-- Source lines 111-121: dispatch on the type of `base[0]`
(`IndexError` on an empty list), converting labels to indices in place.
A list whose head is an int is passed through unchanged, whatever the
remaining elements are. -/
def resolveBase (g : Graph) (l : List Ident) : Except Err (List Ident) :=
  match l with
  | [] => .error .indexError
  | .lab _ :: _ => exMapM (toIndex g) l
  | .idx _ :: _ => .ok l

/-- Source line 126: `spec_set = [i for i in self.indices if i not in base]`.
Membership compares the int `i` with the (possibly heterogeneous)
elements of `base`; an int never equals a string. -/
def specSet (g : Graph) (base : List Ident) : List ℕ :=
  (List.range g.n).filter (fun i => ¬ Ident.idx i ∈ base)

/-- Source line 127: `permute = base + spec_set`. -/
def specPermute (g : Graph) (base : List Ident) : List Ident :=
  base ++ (specSet g base).map Ident.idx

/-- Source line 136: `self.A[permute,:][:,permute]` — the adjacency with
rows and columns fancy-indexed by `permute`.  On the paths that reach
line 136 every entry of `permute` is a valid index (invalid entries have
already raised during the `labeler` rebuild of line 130), so the `0`
fallback arms are dead code there. -/
def specPA (g : Graph) (base : List Ident) : ℕ → ℕ → ℕ := fun i j =>
  match (specPermute g base)[i]?, (specPermute g base)[j]? with
  | some (.idx a), some (.idx b) => g.A a b
  | _, _ => 0

/-- Source line 141: `in_graph = self.A[base_len:,:][:,:base_len]` — the
cross block of edges from the base block into the specialized block. -/
def inGraph (g : Graph) (base : List Ident) : ℕ → ℕ → ℕ := fun i j =>
  specPA g base (base.length + i) j

/-- Source line 142: `out_graph = self.A[:base_len,:][:,base_len:]` — the
cross block of edges from the specialized block into the base block. -/
def outGraph (g : Graph) (base : List Ident) : ℕ → ℕ → ℕ := fun i j =>
  specPA g base i (base.length + j)

/-- Source line 143: `num_in = in_graph.sum()`. -/
def numIn (g : Graph) (base : List Ident) : ℕ :=
  ∑ i in Finset.range (specSet g base).length,
    ∑ j in Finset.range base.length, inGraph g base i j

/-- Source line 144: `num_out = out_graph.sum()`. -/
def numOut (g : Graph) (base : List Ident) : ℕ :=
  ∑ i in Finset.range base.length,
    ∑ j in Finset.range (specSet g base).length, outGraph g base i j

/-- Source line 145: `num_copies = int(num_in * num_out)` (exact on
natural-number weights). -/
def numCopies (g : Graph) (base : List Ident) : ℕ :=
  numIn g base * numOut g base

/-- Source line 146: `in_edges = np.argwhere(in_graph != 0)`, the nonzero
positions of the into-spec block in row-major order. -/
def inEdges (g : Graph) (base : List Ident) : List (ℕ × ℕ) :=
  (List.range (specSet g base).length).flatMap (fun i =>
    ((List.range base.length).filter (fun j => inGraph g base i j ≠ 0)).map
      (fun j => (i, j)))

/-- Source line 147: `out_edges = np.argwhere(out_graph != 0)`. -/
def outEdges (g : Graph) (base : List Ident) : List (ℕ × ℕ) :=
  (List.range base.length).flatMap (fun i =>
    ((List.range (specSet g base).length).filter (fun j => outGraph g base i j ≠ 0)).map
      (fun j => (i, j)))

/-- Node count of the specialized result:
`base_len + num_copies * spec_len`. -/
def specN (g : Graph) (base : List Ident) : ℕ :=
  base.length + numCopies g base * (specSet g base).length

/-- Source lines 150-154: the block-diagonal matrix
`block_diag([base-base] + [spec-spec]*num_copies)` — the base block at
the top left followed by `num_copies` verbatim copies of the spec-spec
block, all cross entries zero. -/
def blockS (g : Graph) (base : List Ident) : ℕ → ℕ → ℕ := fun i j =>
  let bl := base.length
  let sl := (specSet g base).length
  if i < bl ∧ j < bl then specPA g base i j
  else if bl ≤ i ∧ i < specN g base ∧ bl ≤ j ∧ j < specN g base ∧
      (i - bl) / sl = (j - bl) / sl then
    specPA g base (bl + (i - bl) % sl) (bl + (j - bl) % sl)
  else 0

/-- The pairings traversed by the fill loop of source lines 158-169:
`in_edges` as the outer loop, `out_edges` as the inner loop. -/
def specPairs (g : Graph) (base : List Ident) : List ((ℕ × ℕ) × (ℕ × ℕ)) :=
  (inEdges g base).flatMap (fun ie => (outEdges g base).map (fun oe => (ie, oe)))

/-- A single sparse-matrix assignment `S[r,c] = v`. -/
def upd (M : ℕ → ℕ → ℕ) (r c v : ℕ) : ℕ → ℕ → ℕ := fun a b =>
  if a = r ∧ b = c then v else M a b

/-- Sequential execution of a list of assignments `S[r,c] = v`. -/
def applyWrites (ws : List ((ℕ × ℕ) × ℕ)) (M : ℕ → ℕ → ℕ) : ℕ → ℕ → ℕ :=
  ws.foldl (fun acc w => upd acc w.1.1 w.1.2 w.2) M

/-- The assignment `S[base_len + i*spec_len + in_edge[0], in_edge[1]] =
in_graph[in_edge[0], in_edge[1]]` (source line 166) for pairing `p` at
counter value `c`. -/
def inWrite (bl sl : ℕ) (inG : ℕ → ℕ → ℕ) (c : ℕ) (p : (ℕ × ℕ) × (ℕ × ℕ)) :
    (ℕ × ℕ) × ℕ :=
  ((bl + c * sl + p.1.1, p.1.2), inG p.1.1 p.1.2)

/-- The assignment `S[out_edge[0], base_len + i*spec_len + out_edge[1]] =
out_graph[out_edge[0], out_edge[1]]` (source line 167) for pairing `p` at
counter value `c`. -/
def outWrite (bl sl : ℕ) (outG : ℕ → ℕ → ℕ) (c : ℕ) (p : (ℕ × ℕ) × (ℕ × ℕ)) :
    (ℕ × ℕ) × ℕ :=
  ((p.2.1, bl + c * sl + p.2.2), outG p.2.1 p.2.2)

/-- The assignments performed by the fill loop (source lines 158-169)
starting from counter value `c`: for each pairing, first the in-edge
assignment, then the out-edge assignment, then `i += 1`. -/
def pairWrites (bl sl : ℕ) (inG outG : ℕ → ℕ → ℕ) :
    ℕ → List ((ℕ × ℕ) × (ℕ × ℕ)) → List ((ℕ × ℕ) × ℕ)
  | _, [] => []
  | c, p :: ps =>
    inWrite bl sl inG c p :: outWrite bl sl outG c p ::
    pairWrites bl sl inG outG (c + 1) ps

/-- All assignments of the fill loop, counter starting at `0`. -/
def specWrites (g : Graph) (base : List Ident) : List ((ℕ × ℕ) × ℕ) :=
  pairWrites base.length (specSet g base).length (inGraph g base) (outGraph g base)
    0 (specPairs g base)

/-- The assembled specialized adjacency: block diagonal plus the
rewired boundary edges (source lines 150-171). -/
def specS (g : Graph) (base : List Ident) : ℕ → ℕ → ℕ :=
  applyWrites (specWrites g base) (blockS g base)

/-- Source line 130: rebuild the labeler dict over keys `range n`;
`permute[i]` is looked up in the old labeler dict (whose keys are the
ints `0..n-1`), so a string entry or an out-of-range index raises
`KeyError`. -/
def rebuildLabeler (g : Graph) (base : List Ident) :
    Except Err (List (ℕ × String)) :=
  exMapM (fun i =>
    match (specPermute g base)[i]? with
    | none => .error Err.indexError
    | some (Ident.idx j) =>
      match pyGet g.labeler j with
      | some s => .ok (i, s)
      | none => .error Err.keyError
    | some (Ident.lab _) => .error Err.keyError) (List.range g.n)

/-- Source line 132: `self.labels = [self.labels[i] for i in permute]`;
a string entry of `permute` would be a `TypeError` as a list index. -/
def permuteLabels (g : Graph) (base : List Ident) : Except Err (List String) :=
  exMapM (fun p =>
    match p with
    | Ident.idx j =>
      match g.labels[j]? with
      | some s => .ok s
      | none => .error Err.indexError
    | Ident.lab _ => .error Err.typeError) (specPermute g base)

/-- Source lines 174-179: labels of the `num_copies · spec_len` copy
nodes, one row per copy `i`, node `j` of copy `i` getting
`self.labels[base_len + j] + '.' + str(i+1)` with `self.labels` already
permuted. -/
def copyLabelRows (g : Graph) (base : List Ident) (postLabels : List String) :
    Except Err (List (List String)) :=
  exMapM (fun i => exMapM (fun j =>
      match postLabels[base.length + j]? with
      | some s => .ok (s ++ "." ++ toString (i + 1))
      | none => .error Err.indexError) (List.range (specSet g base).length))
    (List.range (numCopies g base))

/-- The method `Graph.specialize` (source lines 99-182).  Returns the
pair `(returned graph, state of self after the call)`: the method
reassigns `self.labeler`, `self.indexer`, `self.labels` and `self.A`
(lines 130-136) before building the new graph, so the caller's graph is
mutated. -/
def specialize (g : Graph) (base₀ : List Ident) :
    Except Err (Graph × Graph) := do
  -- lines 111-121: resolve a label list to indices (mutating the
  -- caller's `base` list); an int-headed list passes through unchanged
  let base ← resolveBase g base₀
  -- lines 122-123
  if base.length > g.n then throw (Err.valueError "base list is too long") else do
  -- lines 129-132
  let labelerPairs ← rebuildLabeler g base
  let newIndexer := labelerPairs.map (fun p => (p.2, p.1))
  let postLabels ← permuteLabels g base
  -- line 136: `self.A = self.A[permute,:][:,permute]`
  let post : Graph := { g with labeler := labelerPairs, indexer := newIndexer,
                               labels := postLabels, A := specPA g base }
  -- lines 139-171 are the pure block/rewiring computations above
  -- (`numCopies`, `inEdges`, `outEdges`, `blockS`, `specS`);
  -- lines 174-179: base labels unchanged, copy labels get `.{i+1}`
  let copyLabels ← copyLabelRows g base postLabels
  let newLabels := postLabels.take base.length ++ copyLabels.flatten
  -- line 182: `Graph(S, labels, self.F, self.origin)`
  let res ← graphInit (specN g base) (specS g base) (some newLabels) g.F (some post.origin)
  pure (res, post)

/-! ### Dynamics (`Graph.dynamics`, `Graph.iterate`,
`Graph._linear_dynamics`, source lines 203-296) -/

/-- Sparse matrix-vector product `A @ v` over the first `n` coordinates
(a state row of the trajectory array: entries beyond `n` do not exist,
modelled as `0`). -/
def matVec (n : ℕ) (A : ℕ → ℕ → ℕ) (v : ℕ → ℚ) : ℕ → ℚ := fun i =>
  if i < n then ∑ j in Finset.range n, (A i j : ℚ) * v j else 0

/-- Matrix product of two `n × n` adjacency matrices. -/
def matMul (n : ℕ) (A B : ℕ → ℕ → ℕ) : ℕ → ℕ → ℕ := fun i j =>
  ∑ k in Finset.range n, A i k * B k j

/-- Matrix power `A^t` of an `n × n` adjacency matrix. -/
def matPow (n : ℕ) (A : ℕ → ℕ → ℕ) : ℕ → (ℕ → ℕ → ℕ)
  | 0 => fun i j => if i = j ∧ i < n then 1 else 0
  | t + 1 => matMul n A (matPow n A t)

/-- Row `t` of the linear trajectory: row `0` is the initial condition
(written into a length-`n` zero row), and row `t+1 = A @ row t`
(source line 294). -/
def linTraj (g : Graph) (x0 : ℕ → ℚ) : ℕ → (ℕ → ℚ)
  | 0 => fun j => if j < g.n then x0 j else 0
  | t + 1 => matVec g.n g.A (linTraj g x0 t)

/-- The method `Graph._linear_dynamics` (source lines 277-296):
`t = np.zeros((iters, n)); t[0] = initial_condition;` then
`t[i] = A @ t[i-1]`.  With `iters = 0` the assignment `t[0] = ...`
raises `IndexError`. -/
def linearDynamics (g : Graph) (iters : ℕ) (x0 : ℕ → ℚ) :
    Except Err (List (ℕ → ℚ)) :=
  if iters = 0 then .error .indexError
  else .ok ((List.range iters).map (linTraj g x0))

/-- The method `Graph.dynamics` (source lines 203-229): one nonlinear
step; `t[i] = F[o_i,o_i](t0[i]) + Σ_{j≠i} A[i,j]·F[o_i,o_j](t0[j])`,
where `o_i = original(i)` (which may raise `KeyError`). -/
def dynamics (g : Graph) (F : ℕ → ℕ → ℚ → ℚ) (t0 : ℕ → ℚ) :
    Except Err (ℕ → ℚ) := do
  let vals ← exMapM (fun i => do
      let oi ← original g i
      let terms ← exMapM (fun j => do
          let oj ← original g j
          pure (if i = j then F oi oj (t0 j) else (g.A i j : ℚ) * F oi oj (t0 j)))
        (List.range g.n)
      pure (terms.foldl (· + ·) 0)) (List.range g.n)
  pure (fun i => (vals[i]?).getD 0)

/-- The rows after row `0` of the nonlinear trajectory. -/
def nonlinRows (g : Graph) (F : ℕ → ℕ → ℚ → ℚ) :
    ℕ → (ℕ → ℚ) → Except Err (List (ℕ → ℚ))
  | 0, _ => .ok []
  | k + 1, prev => do
    let nxt ← dynamics g F prev
    let rest ← nonlinRows g F k nxt
    pure (nxt :: rest)

/-- The method `Graph.iterate` (source lines 231-275), without the
plotting side effects.  `np.any(self.F == None)` selects the linear
mode exactly when no functional matrix is present. -/
def iterate (g : Graph) (iters : ℕ) (x0 : ℕ → ℚ) :
    Except Err (List (ℕ → ℚ)) :=
  match g.F with
  | none => linearDynamics g iters x0
  | some F =>
    if iters = 0 then .error .indexError
    else do
      let row0 : ℕ → ℚ := fun j => if j < g.n then x0 j else 0
      let rest ← nonlinRows g F (iters - 1) row0
      pure (row0 :: rest)

/-! ### Stability analysis (`Graph.stability_matrix`,
`Graph.spectral_radius`, source lines 298-338)

Differentiation (`autograd`) and the dense eigensolver (`scipy.linalg.eig`)
are external collaborators; they enter as parameters `dF` (the
elementwise derivative of `F[a,b]`) and `eig` (the eigenvalue list of a
real matrix). -/

/-- Source line 309: `domain = np.linspace(-10, 10, 50000)`. -/
def stabDomain : List ℚ :=
  (List.range 50000).map (fun k => -10 + 20 * (k : ℚ) / 49999)

/-- Value of `np.max` on a (nonempty) array, `0` on the empty one. -/
def npMax : List ℚ → ℚ
  | [] => 0
  | x :: xs => xs.foldl max x

/-- Source lines 322-324: `Df[i,j] = np.max(np.abs(-1 * d(x)))` over the
sampled domain, where `d` is the derivative of `F[o_i, o_j]`. -/
def stabilityEntry (d : ℚ → ℚ) : ℚ :=
  npMax (stabDomain.map (fun x => |(-1 : ℚ) * d x|))

/-- The method `Graph.stability_matrix` (source lines 298-326), as the
row-major list of its entries; `dF a b` is the derivative of `F[a,b]`
supplied by the differentiation collaborator. -/
def stability_matrix (g : Graph) (dF : ℕ → ℕ → ℚ → ℚ) :
    Except Err (List (List ℚ)) :=
  exMapM (fun i => do
    let oi ← original g i
    exMapM (fun j => do
      let oj ← original g j
      pure (stabilityEntry (dF oi oj))) (List.range g.n)) (List.range g.n)

/-- Value of `np.max` on a (nonempty) real array, `0` on the empty one. -/
noncomputable def npMaxR : List ℝ → ℝ
  | [] => 0
  | x :: xs => xs.foldl max x

/-- The method `Graph.spectral_radius` (source lines 328-338):
`np.max(np.abs(la.eig(Df)[0]))`, with the eigensolver `eig` an external
collaborator returning the eigenvalue array of the matrix. -/
noncomputable def spectral_radius (g : Graph) (dF : ℕ → ℕ → ℚ → ℚ)
    (eig : List (List ℚ) → List ℂ) : Except Err ℝ := do
  let Df ← stability_matrix g dF
  pure (npMaxR ((eig Df).map Complex.abs))

/-- The row-major entry list of a stability matrix as a complex
`n × n` matrix (entries default to `0` out of range). -/
noncomputable def toMatC (n : ℕ) (Df : List (List ℚ)) : Matrix (Fin n) (Fin n) ℂ :=
  fun i j => ((((Df[(i:ℕ)]?.bind (fun r => r[(j:ℕ)]?)).getD 0) : ℚ) : ℂ)

/-- The true eigenvalues (with multiplicity) of an `n × n` real matrix:
the complex roots of its characteristic polynomial. -/
noncomputable def eigsOf (n : ℕ) (Df : List (List ℚ)) : Multiset ℂ :=
  (Matrix.charpoly (toMatC n Df)).roots

/-! ### Basic lemmas about the embedding's plumbing -/

@[simp] lemma ok_bind (a : α) (f : α → Except Err β) :
    (Except.ok a : Except Err α) >>= f = f a := rfl

@[simp] lemma error_bind (e : Err) (f : α → Except Err β) :
    (Except.error e : Except Err α) >>= f = Except.error e := rfl

lemma exMapM_ok_map (f : α → Except Err β) (v : α → β) :
    ∀ l : List α, (∀ a ∈ l, f a = .ok (v a)) → exMapM f l = .ok (l.map v) := by
  intro l
  induction l with
  | nil => intro _; rfl
  | cons a as ih =>
    intro h
    have ha : f a = .ok (v a) := h a (by simp)
    have has : exMapM f as = .ok (as.map v) := ih (fun x hx => h x (by simp [hx]))
    simp [exMapM, ha, has]

lemma exMapM_error (f : α → Except Err β) (e : Err) :
    ∀ l : List α, (∀ a ∈ l, f a = .error e ∨ ∃ b, f a = .ok b) →
      (∃ a ∈ l, f a = .error e) → exMapM f l = .error e := by
  intro l
  induction l with
  | nil => intro _ h; simp at h
  | cons a as ih =>
    intro hall hex
    rcases hall a (by simp) with ha | ⟨b, hb⟩
    · simp [exMapM, ha]
    · rcases hex with ⟨x, hx, hxe⟩
      rcases List.mem_cons.mp hx with rfl | hxas
      · rw [hxe] at hb; cases hb
      · have : exMapM f as = .error e :=
          ih (fun y hy => hall y (by simp [hy])) ⟨x, hxas, hxe⟩
        simp [exMapM, hb, this]

lemma exMapM_ok_length (f : α → Except Err β) :
    ∀ (l : List α) (bs : List β), exMapM f l = .ok bs → bs.length = l.length := by
  intro l
  induction l with
  | nil => intro bs h; cases h; rfl
  | cons a as ih =>
    intro bs h
    cases ha : f a with
    | error e => rw [exMapM, ha] at h; cases h
    | ok b =>
      cases has : exMapM f as with
      | error e => rw [exMapM, ha, has] at h; cases h
      | ok bs' =>
        rw [exMapM, ha, has] at h
        cases h
        simp [ih bs' has]

lemma pyGet_zipIdxFrom_lt (ls : List β) :
    ∀ s k, k < s → pyGet (zipIdxFrom s ls) k = none := by
  induction ls with
  | nil => intro s k _; rfl
  | cons b bs ih =>
    intro s k hk
    rw [zipIdxFrom, pyGet, ih (s + 1) k (by omega)]
    simp [Nat.ne_of_gt hk]

lemma pyGet_zipIdxFrom (ls : List β) :
    ∀ s j, pyGet (zipIdxFrom s ls) (s + j) = ls[j]? := by
  induction ls with
  | nil => intro s j; rfl
  | cons b bs ih =>
    intro s j
    cases j with
    | zero =>
      rw [zipIdxFrom, pyGet, pyGet_zipIdxFrom_lt bs (s + 1) (s + 0) (by omega)]
      simp
    | succ j' =>
      have harith : s + (j' + 1) = (s + 1) + j' := by omega
      rw [zipIdxFrom, pyGet, harith, ih (s + 1) j']
      have hne : ¬ (s = s + 1 + j') := by omega
      cases h : bs[j']? <;> simp [h, hne]

lemma pyGet_labeler (g : Graph) (hwf : WF g) (j : ℕ) :
    pyGet g.labeler j = g.labels[j]? := by
  have h := pyGet_zipIdxFrom g.labels 0 j
  rw [Nat.zero_add] at h
  rw [hwf.2.1, h]

lemma pyGet_zipValIdx_some [DecidableEq α] (ls : List α) :
    ∀ s (a : α) i, pyGet (zipValIdx s ls) a = some i →
      s ≤ i ∧ i - s < ls.length ∧ ls[i - s]? = some a := by
  induction ls with
  | nil => intro s a i h; cases h
  | cons b bs ih =>
    intro s a i h
    rw [zipValIdx, pyGet] at h
    cases hrest : pyGet (zipValIdx (s + 1) bs) a with
    | some v =>
      rw [hrest] at h
      cases h
      obtain ⟨h1, h2, h3⟩ := ih (s + 1) a i hrest
      refine ⟨by omega, by simp only [List.length_cons]; omega, ?_⟩
      have his : i - s = (i - (s + 1)) + 1 := by omega
      rw [his]
      simpa using h3
    | none =>
      rw [hrest] at h
      by_cases hb : b = a
      · simp [hb] at h
        subst h
        simp [Nat.sub_self, hb]
      · simp [hb] at h

lemma pyGet_zipValIdx_isSome [DecidableEq α] (ls : List α) :
    ∀ s (a : α), a ∈ ls → (pyGet (zipValIdx s ls) a).isSome := by
  induction ls with
  | nil => intro _ _ h; simp at h
  | cons b bs ih =>
    intro s a ha
    rw [zipValIdx, pyGet]
    cases hrest : pyGet (zipValIdx (s + 1) bs) a with
    | some v => rfl
    | none =>
      rcases List.mem_cons.mp ha with rfl | hbs
      · simp
      · have := ih (s + 1) a hbs
        rw [hrest] at this
        cases this

lemma pyGet_indexer_lt (g : Graph) (hwf : WF g) (s : String) (i : ℕ)
    (h : pyGet g.indexer s = some i) : i < g.n ∧ g.labels[i]? = some s := by
  rw [hwf.2.2.1] at h
  have := pyGet_zipValIdx_some g.labels 0 s i h
  rw [Nat.sub_zero] at this
  exact ⟨hwf.1 ▸ this.2.1, this.2.2⟩

/-! ### Lemmas about the fill loop -/

lemma applyWrites_cons (w : (ℕ × ℕ) × ℕ) (ws : List ((ℕ × ℕ) × ℕ)) (M : ℕ → ℕ → ℕ) :
    applyWrites (w :: ws) M = applyWrites ws (upd M w.1.1 w.1.2 w.2) := rfl

lemma applyWrites_notin (a b : ℕ) :
    ∀ (ws : List ((ℕ × ℕ) × ℕ)) (M : ℕ → ℕ → ℕ),
      (∀ w ∈ ws, w.1 ≠ (a, b)) → applyWrites ws M a b = M a b := by
  intro ws
  induction ws with
  | nil => intro M _; rfl
  | cons w ws ih =>
    intro M h
    rw [applyWrites_cons, ih _ (fun x hx => h x (by simp [hx]))]
    have hw : w.1 ≠ (a, b) := h w (by simp)
    have : ¬ (a = w.1.1 ∧ b = w.1.2) := by
      rintro ⟨rfl, rfl⟩
      exact hw rfl
    simp [upd, this]

lemma applyWrites_last (a b : ℕ) :
    ∀ (ws : List ((ℕ × ℕ) × ℕ)) (M : ℕ → ℕ → ℕ) (w : (ℕ × ℕ) × ℕ),
      w ∈ ws → w.1 = (a, b) → (∀ w' ∈ ws, w'.1 = (a, b) → w' = w) →
      applyWrites ws M a b = w.2 := by
  intro ws
  induction ws with
  | nil => intro M w h; simp at h
  | cons v vs ih =>
    intro M w hmem htgt huniq
    rw [applyWrites_cons]
    by_cases hvs : ∃ w' ∈ vs, w'.1 = (a, b)
    · rcases hvs with ⟨w', hw'mem, hw'tgt⟩
      have hww : w' = w := huniq w' (List.mem_cons_of_mem _ hw'mem) hw'tgt
      exact ih _ w (hww ▸ hw'mem) htgt
        (fun x hx hxt => huniq x (List.mem_cons_of_mem _ hx) hxt)
    · push_neg at hvs
      have hvw : v = w := by
        rcases List.mem_cons.mp hmem with rfl | hwv
        · rfl
        · exact absurd htgt (hvs w hwv)
      subst hvw
      rw [applyWrites_notin a b vs _ hvs]
      have h1 : v.1.1 = a := by rw [htgt]
      have h2 : v.1.2 = b := by rw [htgt]
      simp [upd, h1, h2]

/-! ### Closed forms for the data produced on the success path of
`specialize`.  These are not translations of further source code; they
are explicit descriptions of the values the monadic stages above return
on valid input, and the lemmas below prove the two agree. -/

/-- The permutation `base ++ spec_set` as a list of plain indices. -/
def permNat (g : Graph) (base : List ℕ) : List ℕ :=
  base ++ specSet g (base.map Ident.idx)

/-- Label of node `j` of the input graph (total version). -/
def lblD (g : Graph) (j : ℕ) : String := g.labels.getD j ""

/-- Closed form of the rebuilt labeler dict (source line 130). -/
def rebuildP (g : Graph) (base : List ℕ) : List (ℕ × String) :=
  (List.range g.n).map (fun i => (i, lblD g ((permNat g base).getD i 0)))

/-- Closed form of the permuted label list (source line 132). -/
def postLabelsP (g : Graph) (base : List ℕ) : List String :=
  (permNat g base).map (lblD g)

/-- Closed form of the copy-label rows (source lines 174-179). -/
def copyRowsP (g : Graph) (base : List ℕ) : List (List String) :=
  (List.range (numCopies g (base.map Ident.idx))).map (fun i =>
    (List.range (specSet g (base.map Ident.idx)).length).map (fun j =>
      lblD g ((specSet g (base.map Ident.idx)).getD j 0) ++ "." ++ toString (i + 1)))

/-- Closed form of the label list of the returned graph. -/
def newLabelsP (g : Graph) (base : List ℕ) : List String :=
  base.map (lblD g) ++ (copyRowsP g base).flatten

lemma mem_specSet (g : Graph) (base : List Ident) (i : ℕ) :
    i ∈ specSet g base ↔ i < g.n ∧ Ident.idx i ∉ base := by
  simp [specSet, List.mem_filter, List.mem_range]

lemma specSet_lt (g : Graph) (base : List Ident) (i : ℕ) (h : i ∈ specSet g base) :
    i < g.n := ((mem_specSet g base i).mp h).1

lemma specSet_nodup (g : Graph) (base : List Ident) : (specSet g base).Nodup :=
  List.Nodup.filter _ (List.nodup_range g.n)

/-- The permutation list `base ++ spec_set` always has at least `n`
entries: at most `len(base)` of the indices `0..n-1` are missing from
`spec_set`. -/
lemma specPermute_length_ge (g : Graph) (base : List Ident) :
    g.n ≤ (specPermute g base).length := by
  have hsplit := List.length_eq_length_filter_add
    (l := List.range g.n) (fun i => decide (Ident.idx i ∈ base))
  rw [List.length_range] at hsplit
  have hmemlen :
      ((List.range g.n).filter (fun i => decide (Ident.idx i ∈ base))).length ≤
        base.length := by
    set l := (List.range g.n).filter (fun i => decide (Ident.idx i ∈ base)) with hl
    have hnd : l.Nodup := List.Nodup.filter _ (List.nodup_range g.n)
    have hinj : Function.Injective Ident.idx := by
      intro x y hxy
      cases hxy
      rfl
    have hndm : (l.map Ident.idx).Nodup := hnd.map hinj
    have hsub : (l.map Ident.idx).toFinset ⊆ base.toFinset := by
      intro x hx
      rcases List.mem_map.mp (List.mem_toFinset.mp hx) with ⟨i, hi, rfl⟩
      have := (List.mem_filter.mp (hl ▸ hi)).2
      exact List.mem_toFinset.mpr (by simpa using this)
    calc l.length = (l.map Ident.idx).length := (l.length_map _).symm
      _ = (l.map Ident.idx).toFinset.card := (List.toFinset_card_of_nodup hndm).symm
      _ ≤ base.toFinset.card := Finset.card_le_card hsub
      _ ≤ base.length := base.toFinset_card_le
  have hfilter :
      ((List.range g.n).filter (fun i => ¬ Ident.idx i ∈ base)).length =
        ((List.range g.n).filter (fun i => !(decide (Ident.idx i ∈ base)))).length := by
    simp
  rw [specPermute, List.length_append, List.length_map, specSet, hfilter]
  omega

lemma specPermute_map (g : Graph) (base : List ℕ) :
    specPermute g (base.map Ident.idx) = (permNat g base).map Ident.idx := by
  rw [specPermute, permNat, List.map_append]

lemma permNat_get (g : Graph) (base : List ℕ) (hval : ∀ i ∈ base, i < g.n)
    (i : ℕ) (hi : i < g.n) :
    ∃ p, (permNat g base)[i]? = some p ∧ p < g.n := by
  have hlen : i < (permNat g base).length := by
    have := specPermute_length_ge g (base.map Ident.idx)
    rw [specPermute_map, List.length_map] at this
    omega
  refine ⟨(permNat g base)[i], List.getElem?_eq_getElem hlen, ?_⟩
  have hmem : (permNat g base)[i] ∈ permNat g base := List.getElem_mem hlen
  rcases List.mem_append.mp hmem with hb | hs
  · exact hval _ hb
  · exact specSet_lt g _ _ hs

lemma rebuildLabeler_ok (g : Graph) (base : List ℕ) (hwf : WF g)
    (hval : ∀ i ∈ base, i < g.n) :
    rebuildLabeler g (base.map Ident.idx) = .ok (rebuildP g base) := by
  rw [rebuildLabeler, rebuildP]
  apply exMapM_ok_map
  intro i hi
  have hi' : i < g.n := List.mem_range.mp hi
  obtain ⟨p, hp, hpn⟩ := permNat_get g base hval i hi'
  have hplen : p < g.labels.length := by rw [hwf.1]; exact hpn
  obtain ⟨s, hs⟩ : ∃ s, g.labels[p]? = some s := ⟨_, List.getElem?_eq_getElem hplen⟩
  have hgD : (permNat g base).getD i 0 = p := by
    rw [List.getD_eq_getElem?_getD, hp]
    rfl
  have hlbl : lblD g ((permNat g base).getD i 0) = s := by
    rw [hgD, lblD, List.getD_eq_getElem?_getD, hs]
    rfl
  rw [specPermute_map]
  simp only [List.getElem?_map, hp, Option.map_some']
  rw [pyGet_labeler g hwf p, hs, hlbl]

lemma permuteLabels_ok (g : Graph) (base : List ℕ) (hwf : WF g)
    (hval : ∀ i ∈ base, i < g.n) :
    permuteLabels g (base.map Ident.idx) = .ok (postLabelsP g base) := by
  rw [permuteLabels, postLabelsP, specPermute_map]
  have hmm : (permNat g base).map (lblD g) =
      ((permNat g base).map Ident.idx).map (fun p =>
        match p with
        | Ident.idx j => lblD g j
        | Ident.lab _ => "") := by
    rw [List.map_map]
    rfl
  rw [hmm]
  apply exMapM_ok_map
  intro p hp
  rcases List.mem_map.mp hp with ⟨j, hj, rfl⟩
  have hjn : j < g.n := by
    rcases List.mem_append.mp hj with h | h
    · exact hval j h
    · exact specSet_lt g _ j h
  have hjlen : j < g.labels.length := by rw [hwf.1]; exact hjn
  obtain ⟨s, hs⟩ : ∃ s, g.labels[j]? = some s := ⟨_, List.getElem?_eq_getElem hjlen⟩
  have hlbl : lblD g j = s := by
    rw [lblD, List.getD_eq_getElem?_getD, hs]
    rfl
  simp only [hs, hlbl]

lemma copyLabelRows_ok (g : Graph) (base : List ℕ) (hwf : WF g)
    (hval : ∀ i ∈ base, i < g.n) :
    copyLabelRows g (base.map Ident.idx) (postLabelsP g base) =
      .ok (copyRowsP g base) := by
  rw [copyLabelRows, copyRowsP]
  apply exMapM_ok_map
  intro i _
  apply exMapM_ok_map
  intro j hj
  have hjsl : j < (specSet g (base.map Ident.idx)).length := List.mem_range.mp hj
  obtain ⟨x, hx⟩ : ∃ x, (specSet g (base.map Ident.idx))[j]? = some x :=
    ⟨_, List.getElem?_eq_getElem hjsl⟩
  have hpl : (postLabelsP g base)[(base.map Ident.idx).length + j]? =
      some (lblD g ((specSet g (base.map Ident.idx)).getD j 0)) := by
    rw [postLabelsP, List.getElem?_map, permNat, List.length_map,
      List.getElem?_append_right (by omega : base.length ≤ base.length + j)]
    have harith : base.length + j - base.length = j := by omega
    rw [harith, hx]
    have : (specSet g (base.map Ident.idx)).getD j 0 = x := by
      rw [List.getD_eq_getElem?_getD, hx]
      rfl
    rw [this]
    rfl
  rw [hpl]

lemma copyRowsP_flatten_length (g : Graph) (base : List ℕ) :
    (copyRowsP g base).flatten.length =
      numCopies g (base.map Ident.idx) * (specSet g (base.map Ident.idx)).length := by
  rw [copyRowsP, List.length_flatten, List.map_map]
  have h1 : ((List.range (numCopies g (base.map Ident.idx))).map
      (List.length ∘ fun i => (List.range (specSet g (base.map Ident.idx)).length).map
        (fun j => lblD g ((specSet g (base.map Ident.idx)).getD j 0) ++ "." ++
          toString (i + 1)))) =
      (List.range (numCopies g (base.map Ident.idx))).map
        (fun _ => (specSet g (base.map Ident.idx)).length) := by
    apply List.map_congr_left
    intro i _
    simp
  rw [h1, List.map_const', List.sum_replicate, List.length_range, smul_eq_mul]

lemma graphInit_some_ok (n : ℕ) (A : ℕ → ℕ → ℕ) (ls : List String)
    (F : Option (ℕ → ℕ → ℚ → ℚ)) (o : List (String × ℕ))
    (hlen : ls.length = n) (hne : ls ≠ []) (ho : o ≠ []) :
    graphInit n A (some ls) F (some o) =
      .ok { n := n, A := A, labels := ls, labeler := zipIdxFrom 0 ls,
            indexer := zipValIdx 0 ls, origin := o, F := F } := by
  cases ls with
  | nil => exact absurd rfl hne
  | cons a t =>
    simp only [graphInit, hlen]
    simp [ho]
    rfl

/-- Master characterization of `specialize` on any argument list that
resolves to a valid index-typed base set: both the returned graph and
the mutated input are given in closed form. -/
lemma specialize_resolved_eq (g : Graph) (base₀ : List Ident) (base : List ℕ)
    (hwf : WF g) (h1 : resolveBase g base₀ = .ok (base.map Ident.idx))
    (hne : base ≠ []) (hval : ∀ i ∈ base, i < g.n) (hlen : base.length ≤ g.n) :
    specialize g base₀ = .ok
      ({ n := specN g (base.map Ident.idx), A := specS g (base.map Ident.idx),
         labels := newLabelsP g base,
         labeler := zipIdxFrom 0 (newLabelsP g base),
         indexer := zipValIdx 0 (newLabelsP g base),
         origin := g.origin, F := g.F },
       { g with labeler := rebuildP g base,
                indexer := (rebuildP g base).map (fun p => (p.2, p.1)),
                labels := postLabelsP g base,
                A := specPA g (base.map Ident.idx) }) := by
  have hblen : (base.map Ident.idx).length = base.length := List.length_map _ _
  have hnotlong : ¬ ((base.map Ident.idx).length > g.n) := by rw [hblen]; omega
  have htake : (postLabelsP g base).take (base.map Ident.idx).length =
      base.map (lblD g) := by
    rw [hblen, postLabelsP, permNat, List.map_append]
    have h2 : base.length = (base.map (lblD g)).length := (List.length_map _ _).symm
    rw [h2, List.take_left]
  have hnewlen : (newLabelsP g base).length = specN g (base.map Ident.idx) := by
    rw [newLabelsP, List.length_append, List.length_map, copyRowsP_flatten_length,
      specN, hblen]
  have hnewne : newLabelsP g base ≠ [] := by
    intro h
    have hlen0 : (newLabelsP g base).length = 0 := by rw [h]; rfl
    rw [hnewlen, specN, hblen] at hlen0
    cases base with
    | nil => exact hne rfl
    | cons b bs =>
      rw [List.length_cons] at hlen0
      omega
  have hinit := graphInit_some_ok (specN g (base.map Ident.idx))
    (specS g (base.map Ident.idx)) (newLabelsP g base) g.F g.origin
    hnewlen hnewne hwf.2.2.2
  simp only [specialize, h1, ok_bind, if_neg hnotlong,
    rebuildLabeler_ok g base hwf hval, permuteLabels_ok g base hwf hval,
    copyLabelRows_ok g base hwf hval, htake]
  rw [show base.map (lblD g) ++ (copyRowsP g base).flatten = newLabelsP g base from rfl]
  rw [hinit]
  rfl

/-- Specialization of the previous lemma to an index-typed base list
(the `resolveBase` stage is then the identity). -/
lemma specialize_eq (g : Graph) (base : List ℕ) (hwf : WF g) (hne : base ≠ [])
    (hval : ∀ i ∈ base, i < g.n) (hlen : base.length ≤ g.n) :
    specialize g (base.map Ident.idx) = .ok
      ({ n := specN g (base.map Ident.idx), A := specS g (base.map Ident.idx),
         labels := newLabelsP g base,
         labeler := zipIdxFrom 0 (newLabelsP g base),
         indexer := zipValIdx 0 (newLabelsP g base),
         origin := g.origin, F := g.F },
       { g with labeler := rebuildP g base,
                indexer := (rebuildP g base).map (fun p => (p.2, p.1)),
                labels := postLabelsP g base,
                A := specPA g (base.map Ident.idx) }) := by
  apply specialize_resolved_eq g (base.map Ident.idx) base hwf _ hne hval hlen
  cases base with
  | nil => exact absurd rfl hne
  | cons b bs => rfl

lemma list_range_sum (f : ℕ → ℕ) :
    ∀ n : ℕ, ((List.range n).map f).sum = ∑ i in Finset.range n, f i := by
  intro n
  induction n with
  | zero => simp
  | succ n ih =>
    rw [List.range_succ, List.map_append, List.sum_append, Finset.sum_range_succ, ih]
    simp

lemma filter_length_le_sum (f : ℕ → ℕ) :
    ∀ m : ℕ, ((List.range m).filter (fun j => f j ≠ 0)).length ≤
      ∑ j in Finset.range m, f j := by
  intro m
  induction m with
  | zero => simp
  | succ m ih =>
    rw [List.range_succ, List.filter_append, List.length_append, Finset.sum_range_succ]
    have h2 : (List.filter (fun j => decide (f j ≠ 0)) [m]).length ≤ f m := by
      rw [List.filter_cons]
      by_cases h : f m = 0
      · simp [h]
      · have h1 : 1 ≤ f m := Nat.pos_of_ne_zero h
        simp [h]
        omega
    omega

lemma mem_inEdges (g : Graph) (b : List Ident) (r c : ℕ) :
    (r, c) ∈ inEdges g b ↔
      r < (specSet g b).length ∧ c < b.length ∧ inGraph g b r c ≠ 0 := by
  simp only [inEdges, List.mem_flatMap, List.mem_map, List.mem_filter, List.mem_range]
  constructor
  · rintro ⟨i, hi, j, ⟨hj, hne⟩, heq⟩
    obtain ⟨rfl, rfl⟩ : i = r ∧ j = c := by
      constructor <;> [exact congrArg Prod.fst heq; exact congrArg Prod.snd heq]
    exact ⟨hi, hj, by simpa using hne⟩
  · rintro ⟨hr, hc, hne⟩
    exact ⟨r, hr, c, ⟨hc, by simpa using hne⟩, rfl⟩

lemma mem_outEdges (g : Graph) (b : List Ident) (r c : ℕ) :
    (r, c) ∈ outEdges g b ↔
      r < b.length ∧ c < (specSet g b).length ∧ outGraph g b r c ≠ 0 := by
  simp only [outEdges, List.mem_flatMap, List.mem_map, List.mem_filter, List.mem_range]
  constructor
  · rintro ⟨i, hi, j, ⟨hj, hne⟩, heq⟩
    obtain ⟨rfl, rfl⟩ : i = r ∧ j = c := by
      constructor <;> [exact congrArg Prod.fst heq; exact congrArg Prod.snd heq]
    exact ⟨hi, hj, by simpa using hne⟩
  · rintro ⟨hr, hc, hne⟩
    exact ⟨r, hr, c, ⟨hc, by simpa using hne⟩, rfl⟩

lemma mem_specPairs (g : Graph) (b : List Ident) (p : (ℕ × ℕ) × (ℕ × ℕ))
    (hp : p ∈ specPairs g b) : p.1 ∈ inEdges g b ∧ p.2 ∈ outEdges g b := by
  rw [specPairs] at hp
  rcases List.mem_flatMap.mp hp with ⟨ie, hie, hmem⟩
  rcases List.mem_map.mp hmem with ⟨oe, hoe, rfl⟩
  exact ⟨hie, hoe⟩

/-- Bounds on the components of a pairing: the in-edge lives in the
`spec_len × base_len` into-spec block, the out-edge in the
`base_len × spec_len` out-of-spec block, and both carry nonzero weight. -/
lemma specPairs_bounds (g : Graph) (b : List Ident) (p : (ℕ × ℕ) × (ℕ × ℕ))
    (hp : p ∈ specPairs g b) :
    p.1.1 < (specSet g b).length ∧ p.1.2 < b.length ∧
      inGraph g b p.1.1 p.1.2 ≠ 0 ∧
    p.2.1 < b.length ∧ p.2.2 < (specSet g b).length ∧
      outGraph g b p.2.1 p.2.2 ≠ 0 := by
  obtain ⟨hie, hoe⟩ := mem_specPairs g b p hp
  have h1 := (mem_inEdges g b p.1.1 p.1.2).mp (by simpa using hie)
  have h2 := (mem_outEdges g b p.2.1 p.2.2).mp (by simpa using hoe)
  exact ⟨h1.1, h1.2.1, h1.2.2, h2.1, h2.2.1, h2.2.2⟩

lemma inEdges_length_le (g : Graph) (b : List Ident) :
    (inEdges g b).length ≤ numIn g b := by
  rw [inEdges, List.length_flatMap]
  have hcomp : (List.length ∘ fun i => ((List.range b.length).filter
      (fun j => inGraph g b i j ≠ 0)).map (fun j => (i, j))) = (fun i =>
      ((List.range b.length).filter (fun j => inGraph g b i j ≠ 0)).length) := by
    funext i
    simp [Function.comp, List.length_map]
  rw [hcomp, list_range_sum, numIn]
  apply Finset.sum_le_sum
  intro i _
  exact filter_length_le_sum (fun j => inGraph g b i j) b.length

lemma outEdges_length_le (g : Graph) (b : List Ident) :
    (outEdges g b).length ≤ numOut g b := by
  rw [outEdges, List.length_flatMap]
  have hcomp : (List.length ∘ fun i => ((List.range (specSet g b).length).filter
      (fun j => outGraph g b i j ≠ 0)).map (fun j => (i, j))) = (fun i =>
      ((List.range (specSet g b).length).filter (fun j => outGraph g b i j ≠ 0)).length) := by
    funext i
    simp [Function.comp, List.length_map]
  rw [hcomp, list_range_sum, numOut]
  apply Finset.sum_le_sum
  intro i _
  exact filter_length_le_sum (fun j => outGraph g b i j) (specSet g b).length

lemma specPairs_length (g : Graph) (b : List Ident) :
    (specPairs g b).length = (inEdges g b).length * (outEdges g b).length := by
  rw [specPairs, List.length_flatMap]
  rw [show (List.length ∘ fun ie => (outEdges g b).map (fun oe => (ie, oe))) =
    (fun _ => (outEdges g b).length) from funext (fun ie => List.length_map _ _)]
  rw [List.map_const', List.sum_replicate, smul_eq_mul, Nat.mul_comm]

/-- The number of pairings never exceeds `num_copies` (every nonzero
natural weight is at least 1, so edge counts are bounded by weight
sums). -/
lemma specPairs_length_le (g : Graph) (b : List Ident) :
    (specPairs g b).length ≤ numCopies g b := by
  rw [specPairs_length, numCopies]
  exact Nat.mul_le_mul (inEdges_length_le g b) (outEdges_length_le g b)

lemma block_decomp_inj {sl c c' r r' : ℕ} (hr : r < sl) (hr' : r' < sl)
    (h : c * sl + r = c' * sl + r') : c = c' ∧ r = r' := by
  have hsl : 0 < sl := by omega
  have hc : (c * sl + r) / sl = c := by
    rw [Nat.mul_comm c sl, Nat.mul_add_div hsl, Nat.div_eq_of_lt hr, Nat.add_zero]
  have hc' : (c' * sl + r') / sl = c' := by
    rw [Nat.mul_comm c' sl, Nat.mul_add_div hsl, Nat.div_eq_of_lt hr', Nat.add_zero]
  have hcc : c = c' := by rw [← hc, ← hc', h]
  subst hcc
  exact ⟨rfl, Nat.add_left_cancel h⟩

lemma pairWrites_mem (bl sl : ℕ) (inG outG : ℕ → ℕ → ℕ) :
    ∀ (ps : List ((ℕ × ℕ) × (ℕ × ℕ))) (c₀ : ℕ) (w : (ℕ × ℕ) × ℕ),
      w ∈ pairWrites bl sl inG outG c₀ ps ↔
        ∃ k, ∃ hk : k < ps.length,
          w = inWrite bl sl inG (c₀ + k) (ps.get ⟨k, hk⟩) ∨
          w = outWrite bl sl outG (c₀ + k) (ps.get ⟨k, hk⟩) := by
  intro ps
  induction ps with
  | nil => intro c₀ w; simp [pairWrites]
  | cons p ps ih =>
    intro c₀ w
    rw [pairWrites]
    constructor
    · intro h
      rcases List.mem_cons.mp h with rfl | h
      · exact ⟨0, by simp, Or.inl (by simp)⟩
      rcases List.mem_cons.mp h with rfl | h
      · exact ⟨0, by simp, Or.inr (by simp)⟩
      · rcases (ih (c₀ + 1) w).mp h with ⟨k, hk, hw⟩
        refine ⟨k + 1, by simpa using Nat.succ_lt_succ hk, ?_⟩
        have harith : c₀ + (k + 1) = (c₀ + 1) + k := by omega
        simpa [harith] using hw
    · rintro ⟨k, hk, hw⟩
      cases k with
      | zero =>
        rcases hw with rfl | rfl
        · simp
        · simp
      | succ k' =>
        have hk' : k' < ps.length := by simpa using Nat.lt_of_succ_lt_succ hk
        have harith : c₀ + (k' + 1) = (c₀ + 1) + k' := by omega
        refine List.mem_cons.mpr (Or.inr (List.mem_cons.mpr (Or.inr ?_)))
        refine (ih (c₀ + 1) w).mpr ⟨k', hk', ?_⟩
        simpa [harith] using hw

/-! ### Cell-level facts about the assembled specialized matrix -/

lemma specWrites_mem_iff (g : Graph) (b : List Ident) (w : (ℕ × ℕ) × ℕ) :
    w ∈ specWrites g b ↔ ∃ k, ∃ hk : k < (specPairs g b).length,
      w = inWrite b.length (specSet g b).length (inGraph g b) k
            ((specPairs g b).get ⟨k, hk⟩) ∨
      w = outWrite b.length (specSet g b).length (outGraph g b) k
            ((specPairs g b).get ⟨k, hk⟩) := by
  rw [specWrites, pairWrites_mem]
  simp only [Nat.zero_add]

lemma specS_base (g : Graph) (b : List Ident) (i j : ℕ)
    (hi : i < b.length) (hj : j < b.length) :
    specS g b i j = specPA g b i j := by
  rw [specS, applyWrites_notin]
  · simp only [blockS]
    split_ifs with h1 h2
    · rfl
    · exact absurd ⟨hi, hj⟩ h1
    · exact absurd ⟨hi, hj⟩ h1
  · intro w hw
    rcases (specWrites_mem_iff g b w).mp hw with ⟨k, hk, rfl | rfl⟩
    · intro hcontra
      have hfst := congrArg Prod.fst hcontra
      simp only [inWrite] at hfst
      have hge : b.length ≤ i := by
        rw [← hfst, Nat.add_assoc]
        exact Nat.le_add_right _ _
      omega
    · intro hcontra
      have hsnd := congrArg Prod.snd hcontra
      simp only [outWrite] at hsnd
      have hge : b.length ≤ j := by
        rw [← hsnd, Nat.add_assoc]
        exact Nat.le_add_right _ _
      omega

lemma specS_in_cell (g : Graph) (b : List Ident) (c : ℕ) (p : (ℕ × ℕ) × (ℕ × ℕ))
    (hc : (specPairs g b)[c]? = some p) :
    specS g b (b.length + c * (specSet g b).length + p.1.1) p.1.2 =
      inGraph g b p.1.1 p.1.2 := by
  obtain ⟨hclen, hget⟩ := List.getElem?_eq_some.mp hc
  have hgetc : (specPairs g b).get ⟨c, hclen⟩ = p := by simpa using hget
  have hpmem : p ∈ specPairs g b := List.getElem?_mem hc
  obtain ⟨h11, h12, hne0, h21, h22, hne0'⟩ := specPairs_bounds g b p hpmem
  rw [specS]
  apply applyWrites_last _ _ _ _
    (inWrite b.length (specSet g b).length (inGraph g b) c p)
  · rw [specWrites_mem_iff]
    exact ⟨c, hclen, Or.inl (by rw [hgetc])⟩
  · rfl
  · intro w' hw' htgt
    rcases (specWrites_mem_iff g b w').mp hw' with ⟨k, hk, rfl | rfl⟩
    · have hqmem : (specPairs g b).get ⟨k, hk⟩ ∈ specPairs g b := by
        rw [List.get_eq_getElem]
        exact List.getElem_mem hk
      have hqb := specPairs_bounds g b _ hqmem
      have hfst := congrArg Prod.fst htgt
      have hsnd := congrArg Prod.snd htgt
      simp only [inWrite] at hfst hsnd
      rw [Nat.add_assoc, Nat.add_assoc] at hfst
      have hcancel := Nat.add_left_cancel hfst
      obtain ⟨hkc, hq11⟩ := block_decomp_inj hqb.1 h11 hcancel
      subst hkc
      rw [hgetc]
    · have hqmem : (specPairs g b).get ⟨k, hk⟩ ∈ specPairs g b := by
        rw [List.get_eq_getElem]
        exact List.getElem_mem hk
      have hqb := specPairs_bounds g b _ hqmem
      have hfst := congrArg Prod.fst htgt
      simp only [outWrite] at hfst
      have hge : b.length ≤ b.length + c * (specSet g b).length + p.1.1 := by
        rw [Nat.add_assoc]
        exact Nat.le_add_right _ _
      rw [← hfst] at hge
      have := hqb.2.2.2.1
      omega

lemma specS_out_cell (g : Graph) (b : List Ident) (c : ℕ) (p : (ℕ × ℕ) × (ℕ × ℕ))
    (hc : (specPairs g b)[c]? = some p) :
    specS g b p.2.1 (b.length + c * (specSet g b).length + p.2.2) =
      outGraph g b p.2.1 p.2.2 := by
  obtain ⟨hclen, hget⟩ := List.getElem?_eq_some.mp hc
  have hgetc : (specPairs g b).get ⟨c, hclen⟩ = p := by simpa using hget
  have hpmem : p ∈ specPairs g b := List.getElem?_mem hc
  obtain ⟨h11, h12, hne0, h21, h22, hne0'⟩ := specPairs_bounds g b p hpmem
  rw [specS]
  apply applyWrites_last _ _ _ _
    (outWrite b.length (specSet g b).length (outGraph g b) c p)
  · rw [specWrites_mem_iff]
    exact ⟨c, hclen, Or.inr (by rw [hgetc])⟩
  · rfl
  · intro w' hw' htgt
    rcases (specWrites_mem_iff g b w').mp hw' with ⟨k, hk, rfl | rfl⟩
    · have hfst := congrArg Prod.snd htgt
      simp only [inWrite] at hfst
      have hqmem : (specPairs g b).get ⟨k, hk⟩ ∈ specPairs g b := by
        rw [List.get_eq_getElem]
        exact List.getElem_mem hk
      have hqb := specPairs_bounds g b _ hqmem
      have hge : b.length ≤ b.length + c * (specSet g b).length + p.2.2 := by
        rw [Nat.add_assoc]
        exact Nat.le_add_right _ _
      rw [← hfst] at hge
      have := hqb.1.trans_le (Nat.le_refl _)
      have h12' := hqb.2.1
      omega
    · have hqmem : (specPairs g b).get ⟨k, hk⟩ ∈ specPairs g b := by
        rw [List.get_eq_getElem]
        exact List.getElem_mem hk
      have hqb := specPairs_bounds g b _ hqmem
      have hfst := congrArg Prod.fst htgt
      have hsnd := congrArg Prod.snd htgt
      simp only [outWrite] at hfst hsnd
      rw [Nat.add_assoc, Nat.add_assoc] at hsnd
      have hcancel := Nat.add_left_cancel hsnd
      obtain ⟨hkc, hq22⟩ := block_decomp_inj hqb.2.2.2.2.1 h22 hcancel
      subst hkc
      rw [hgetc]

lemma specS_in_region_zero (g : Graph) (b : List Ident) (c r j : ℕ)
    (hr : r < (specSet g b).length) (hj : j < b.length)
    (hother : ∀ p, (specPairs g b)[c]? = some p → p.1 ≠ (r, j)) :
    specS g b (b.length + c * (specSet g b).length + r) j = 0 := by
  rw [specS, applyWrites_notin]
  · simp only [blockS]
    split_ifs with h1 h2
    · exfalso
      obtain ⟨ha, -⟩ := h1
      have hge : b.length ≤ b.length + c * (specSet g b).length + r := by
        rw [Nat.add_assoc]
        exact Nat.le_add_right _ _
      omega
    · exfalso
      obtain ⟨-, -, h3, -⟩ := h2
      omega
    · rfl
  · intro w hw
    rcases (specWrites_mem_iff g b w).mp hw with ⟨k, hk, rfl | rfl⟩
    · intro hcontra
      have hqmem : (specPairs g b).get ⟨k, hk⟩ ∈ specPairs g b := by
        rw [List.get_eq_getElem]
        exact List.getElem_mem hk
      have hqb := specPairs_bounds g b _ hqmem
      have hfst := congrArg Prod.fst hcontra
      have hsnd := congrArg Prod.snd hcontra
      simp only [inWrite] at hfst hsnd
      rw [Nat.add_assoc, Nat.add_assoc] at hfst
      have hcancel := Nat.add_left_cancel hfst
      obtain ⟨hkc, hq11⟩ := block_decomp_inj hqb.1 hr hcancel
      subst hkc
      have hcp : (specPairs g b)[k]? = some ((specPairs g b).get ⟨k, hk⟩) := by
        rw [List.get_eq_getElem]
        exact List.getElem?_eq_getElem hk
      apply hother _ hcp
      have : ((specPairs g b).get ⟨k, hk⟩).1 =
          (((specPairs g b).get ⟨k, hk⟩).1.1, ((specPairs g b).get ⟨k, hk⟩).1.2) := rfl
      rw [this, hq11, hsnd]
    · intro hcontra
      have hsnd := congrArg Prod.snd hcontra
      simp only [outWrite] at hsnd
      have hge : b.length ≤ j := by
        rw [← hsnd, Nat.add_assoc]
        exact Nat.le_add_right _ _
      omega

lemma specS_out_region_zero (g : Graph) (b : List Ident) (c i s : ℕ)
    (hi : i < b.length) (hs : s < (specSet g b).length)
    (hother : ∀ p, (specPairs g b)[c]? = some p → p.2 ≠ (i, s)) :
    specS g b i (b.length + c * (specSet g b).length + s) = 0 := by
  rw [specS, applyWrites_notin]
  · simp only [blockS]
    split_ifs with h1 h2
    · exfalso
      obtain ⟨-, hb⟩ := h1
      have hge : b.length ≤ b.length + c * (specSet g b).length + s := by
        rw [Nat.add_assoc]
        exact Nat.le_add_right _ _
      omega
    · exfalso
      obtain ⟨ha, -⟩ := h2
      omega
    · rfl
  · intro w hw
    rcases (specWrites_mem_iff g b w).mp hw with ⟨k, hk, rfl | rfl⟩
    · intro hcontra
      have hsnd := congrArg Prod.snd hcontra
      simp only [inWrite] at hsnd
      have hqmem : (specPairs g b).get ⟨k, hk⟩ ∈ specPairs g b := by
        rw [List.get_eq_getElem]
        exact List.getElem_mem hk
      have hqb := specPairs_bounds g b _ hqmem
      have hge : b.length ≤ b.length + c * (specSet g b).length + s := by
        rw [Nat.add_assoc]
        exact Nat.le_add_right _ _
      rw [← hsnd] at hge
      have := hqb.2.1
      omega
    · intro hcontra
      have hqmem : (specPairs g b).get ⟨k, hk⟩ ∈ specPairs g b := by
        rw [List.get_eq_getElem]
        exact List.getElem_mem hk
      have hqb := specPairs_bounds g b _ hqmem
      have hfst := congrArg Prod.fst hcontra
      have hsnd := congrArg Prod.snd hcontra
      simp only [outWrite] at hfst hsnd
      rw [Nat.add_assoc, Nat.add_assoc] at hsnd
      have hcancel := Nat.add_left_cancel hsnd
      obtain ⟨hkc, hq22⟩ := block_decomp_inj hqb.2.2.2.2.1 hs hcancel
      subst hkc
      have hcp : (specPairs g b)[k]? = some ((specPairs g b).get ⟨k, hk⟩) := by
        rw [List.get_eq_getElem]
        exact List.getElem?_eq_getElem hk
      apply hother _ hcp
      have : ((specPairs g b).get ⟨k, hk⟩).2 =
          (((specPairs g b).get ⟨k, hk⟩).2.1, ((specPairs g b).get ⟨k, hk⟩).2.2) := rfl
      rw [this, hfst, hq22]

/-- Within the base block, the permuted adjacency is the original
adjacency read at the base nodes in the order they were given. -/
lemma specPA_base (g : Graph) (base : List ℕ) (i j bi bj : ℕ)
    (hi : base[i]? = some bi) (hj : base[j]? = some bj) :
    specPA g (base.map Ident.idx) i j = g.A bi bj := by
  have hilen : i < base.length := (List.getElem?_eq_some.mp hi).1
  have hjlen : j < base.length := (List.getElem?_eq_some.mp hj).1
  have hpi : (specPermute g (base.map Ident.idx))[i]? = some (Ident.idx bi) := by
    rw [specPermute_map, List.getElem?_map, permNat,
      List.getElem?_append_left hilen, hi]
    rfl
  have hpj : (specPermute g (base.map Ident.idx))[j]? = some (Ident.idx bj) := by
    rw [specPermute_map, List.getElem?_map, permNat,
      List.getElem?_append_left hjlen, hj]
    rfl
  simp only [specPA, hpi, hpj]

/-! ### The degenerate cases: no copies -/

lemma numIn_zero_entries (g : Graph) (b : List Ident) (h : numIn g b = 0) :
    ∀ i < (specSet g b).length, ∀ j < b.length, inGraph g b i j = 0 := by
  intro i hi j hj
  rw [numIn] at h
  have h1 := (Finset.sum_eq_zero_iff.mp h) i (Finset.mem_range.mpr hi)
  exact (Finset.sum_eq_zero_iff.mp h1) j (Finset.mem_range.mpr hj)

lemma numOut_zero_entries (g : Graph) (b : List Ident) (h : numOut g b = 0) :
    ∀ i < b.length, ∀ j < (specSet g b).length, outGraph g b i j = 0 := by
  intro i hi j hj
  rw [numOut] at h
  have h1 := (Finset.sum_eq_zero_iff.mp h) i (Finset.mem_range.mpr hi)
  exact (Finset.sum_eq_zero_iff.mp h1) j (Finset.mem_range.mpr hj)

lemma inEdges_nil_of_numIn_zero (g : Graph) (b : List Ident) (h : numIn g b = 0) :
    inEdges g b = [] := by
  rw [List.eq_nil_iff_forall_not_mem]
  rintro ⟨r, c⟩ hmem
  obtain ⟨hr, hc, hne⟩ := (mem_inEdges g b r c).mp hmem
  exact hne (numIn_zero_entries g b h r hr c hc)

lemma outEdges_nil_of_numOut_zero (g : Graph) (b : List Ident) (h : numOut g b = 0) :
    outEdges g b = [] := by
  rw [List.eq_nil_iff_forall_not_mem]
  rintro ⟨r, c⟩ hmem
  obtain ⟨hr, hc, hne⟩ := (mem_outEdges g b r c).mp hmem
  exact hne (numOut_zero_entries g b h r hr c hc)

lemma specPairs_nil (g : Graph) (b : List Ident)
    (h : numIn g b = 0 ∨ numOut g b = 0) : specPairs g b = [] := by
  rw [List.eq_nil_iff_forall_not_mem]
  intro p hp
  obtain ⟨hie, hoe⟩ := mem_specPairs g b p hp
  rcases h with h | h
  · rw [inEdges_nil_of_numIn_zero g b h] at hie
    exact absurd hie (List.not_mem_nil _)
  · rw [outEdges_nil_of_numOut_zero g b h] at hoe
    exact absurd hoe (List.not_mem_nil _)

lemma specSet_nil_of_full (g : Graph) (b : List Ident)
    (hfull : ∀ i < g.n, Ident.idx i ∈ b) : specSet g b = [] := by
  rw [List.eq_nil_iff_forall_not_mem]
  intro i hi
  obtain ⟨hlt, hnot⟩ := (mem_specSet g b i).mp hi
  exact hnot (hfull i hlt)

lemma numIn_zero_of_specSet_nil (g : Graph) (b : List Ident)
    (h : specSet g b = []) : numIn g b = 0 := by
  rw [numIn, h]
  simp

/-- With `num_copies = 0` and no pairings, the assembled matrix is
exactly the base-base block of the permuted adjacency. -/
lemma specS_no_copies (g : Graph) (b : List Ident)
    (hnc : numCopies g b = 0) (hps : specPairs g b = []) (i j : ℕ) :
    specS g b i j =
      if i < b.length ∧ j < b.length then specPA g b i j else 0 := by
  rw [specS, specWrites, hps]
  have happly : pairWrites b.length (specSet g b).length (inGraph g b)
      (outGraph g b) 0 [] = [] := rfl
  rw [happly]
  have hN : specN g b = b.length := by
    rw [specN, hnc, Nat.zero_mul, Nat.add_zero]
  show blockS g b i j = _
  simp only [blockS]
  split_ifs with h1 h2
  · rfl
  · exfalso
    obtain ⟨ha, hb, -⟩ := h2
    rw [hN] at hb
    omega
  · rfl

/-! ### Linear dynamics -/

lemma matVec_matMul (n : ℕ) (A B : ℕ → ℕ → ℕ) (v : ℕ → ℚ) :
    matVec n (matMul n A B) v = matVec n A (matVec n B v) := by
  funext i
  by_cases hi : i < n
  · simp only [matVec, matMul, if_pos hi]
    have hL : (∑ j in Finset.range n,
        ((∑ k in Finset.range n, A i k * B k j : ℕ) : ℚ) * v j) =
        ∑ j in Finset.range n, ∑ k in Finset.range n,
          (A i k : ℚ) * (B k j : ℚ) * v j := by
      apply Finset.sum_congr rfl
      intro j _
      rw [Nat.cast_sum, Finset.sum_mul]
      apply Finset.sum_congr rfl
      intro k _
      push_cast
      ring
    rw [hL, Finset.sum_comm]
    apply Finset.sum_congr rfl
    intro k hk
    rw [if_pos (Finset.mem_range.mp hk), Finset.mul_sum]
    apply Finset.sum_congr rfl
    intro j _
    ring
  · simp only [matVec, matMul, if_neg hi]

lemma linTraj_matPow (g : Graph) (x0 : ℕ → ℚ) :
    ∀ t : ℕ, ∀ i < g.n,
      linTraj g x0 t i = matVec g.n (matPow g.n g.A t) x0 i := by
  intro t
  induction t with
  | zero =>
    intro i hi
    simp only [linTraj, matPow, matVec, if_pos hi]
    rw [Finset.sum_eq_single i (fun b _ hbne => by simp [Ne.symm hbne])
      (fun habs => absurd (Finset.mem_range.mpr hi) habs)]
    simp [hi]
  | succ t ih =>
    intro i hi
    show matVec g.n g.A (linTraj g x0 t) i = _
    rw [matPow, matVec_matMul]
    simp only [matVec, if_pos hi]
    apply Finset.sum_congr rfl
    intro j hj
    rw [ih j (Finset.mem_range.mp hj)]
    simp only [matVec]

/-! ### Canonical labels and original-index resolution -/

lemma takeWhile_append_dot (p : Char → Bool) (hdot : p '.' = false) :
    ∀ (l1 l2 : List Char), (l1 ++ '.' :: l2).takeWhile p = l1.takeWhile p := by
  intro l1 l2
  induction l1 with
  | nil => simp [List.takeWhile_cons, hdot]
  | cons a l ih =>
    simp only [List.cons_append, List.takeWhile_cons]
    cases p a <;> simp [ih]

/-- Appending a `.suffix` to a label does not change its canonical
form. -/
lemma stripDot_append_dot (s t : String) : stripDot (s ++ "." ++ t) = stripDot s := by
  unfold stripDot
  congr 1
  rw [String.data_append, String.data_append]
  have hd : ("." : String).data = ['.'] := rfl
  rw [hd, List.append_assoc]
  exact takeWhile_append_dot _ rfl s.data t.data

/-- A label with no `'.'` is its own canonical form. -/
lemma stripDot_no_dot (s : String) (h : '.' ∉ s.data) : stripDot s = s := by
  unfold stripDot
  have : s.data.takeWhile (fun c => decide (c ≠ '.')) = s.data := by
    rw [List.takeWhile_eq_self_iff]
    intro a ha
    simp only [decide_eq_true_eq]
    intro haeq
    exact h (haeq ▸ ha)
  rw [this]

lemma labels_getElem_lblD (g : Graph) (k : ℕ) (hk : k < g.labels.length) :
    g.labels[k]? = some (lblD g k) := by
  rw [lblD, List.getD_eq_getElem?_getD, List.getElem?_eq_getElem hk]
  rfl

/-- On a well-formed graph, `original` is origin lookup of the stripped
label. -/
lemma original_eq (g : Graph) (hwf : WF g) (k : ℕ) (hk : k < g.n) :
    original g k =
      (match pyGet g.origin (stripDot (lblD g k)) with
       | none => .error Err.keyError
       | some o => .ok o) := by
  rw [original, pyGet_labeler g hwf k,
    labels_getElem_lblD g k (by rw [hwf.1]; exact hk)]

/-- Index arithmetic for `List.flatten` over uniform-length rows. -/
lemma getElem?_flatten_uniform {α : Type _} (m : ℕ) :
    ∀ (L : List (List α)), (∀ l ∈ L, l.length = m) →
      ∀ c j, j < m →
        L.flatten[c * m + j]? = (L[c]?).bind (fun l => l[j]?) := by
  intro L
  induction L with
  | nil => intro _ c j _; simp
  | cons l L ih =>
    intro hall c j hj
    rw [List.flatten_cons]
    have hl : l.length = m := hall l (by simp)
    cases c with
    | zero =>
      rw [Nat.zero_mul, Nat.zero_add, List.getElem?_append_left (by omega)]
      simp
    | succ c' =>
      have harr : (c' + 1) * m + j = m + (c' * m + j) := by
        rw [Nat.succ_mul]
        have : c' * m + m + j = m + (c' * m + j) := by
          rw [Nat.add_comm (c' * m) m, Nat.add_assoc]
        exact this
      have hge : l.length ≤ (c' + 1) * m + j := by
        rw [hl, harr]
        exact Nat.le_add_right _ _
      rw [List.getElem?_append_right hge]
      have hsub : (c' + 1) * m + j - l.length = c' * m + j := by
        rw [hl, harr, Nat.add_sub_cancel_left]
      rw [hsub, ih (fun x hx => hall x (by simp [hx])) c' j hj]
      simp

/-! ### `np.max` folds -/

lemma le_foldl_max {α : Type _} [LinearOrder α] :
    ∀ (l : List α) (a : α), a ≤ l.foldl max a := by
  intro l
  induction l with
  | nil => intro a; simp
  | cons b bs ih =>
    intro a
    rw [List.foldl_cons]
    exact le_trans (le_max_left a b) (ih (max a b))

lemma mem_le_foldl_max {α : Type _} [LinearOrder α] :
    ∀ (l : List α) (a x : α), x ∈ l → x ≤ l.foldl max a := by
  intro l
  induction l with
  | nil => intro a x h; simp at h
  | cons b bs ih =>
    intro a x hx
    rw [List.foldl_cons]
    rcases List.mem_cons.mp hx with rfl | hxs
    · exact le_trans (le_max_right a x) (le_foldl_max bs (max a x))
    · exact ih (max a b) x hxs

lemma foldl_max_mem {α : Type _} [LinearOrder α] :
    ∀ (l : List α) (a : α), l.foldl max a = a ∨ l.foldl max a ∈ l := by
  intro l
  induction l with
  | nil => intro a; left; rfl
  | cons b bs ih =>
    intro a
    rw [List.foldl_cons]
    rcases ih (max a b) with h | h
    · rcases max_choice a b with hm | hm
      · left; rw [h, hm]
      · right; rw [h, hm]; exact List.mem_cons_self b bs
    · right; exact List.mem_cons_of_mem b h

lemma npMax_ge (l : List ℚ) (x : ℚ) (hx : x ∈ l) : x ≤ npMax l := by
  cases l with
  | nil => simp at hx
  | cons b bs =>
    rw [npMax]
    rcases List.mem_cons.mp hx with rfl | hxs
    · exact le_foldl_max bs x
    · exact mem_le_foldl_max bs b x hxs

lemma npMaxR_ge (l : List ℝ) (x : ℝ) (hx : x ∈ l) : x ≤ npMaxR l := by
  cases l with
  | nil => simp at hx
  | cons b bs =>
    rw [npMaxR]
    rcases List.mem_cons.mp hx with rfl | hxs
    · exact le_foldl_max bs x
    · exact mem_le_foldl_max bs b x hxs

lemma npMaxR_mem (l : List ℝ) (hl : l ≠ []) : npMaxR l ∈ l := by
  cases l with
  | nil => exact absurd rfl hl
  | cons b bs =>
    rw [npMaxR]
    rcases foldl_max_mem bs b with h | h
    · rw [h]; exact List.mem_cons_self b bs
    · exact List.mem_cons_of_mem b h

/-- The `-1 *` in the source's derivative sampling does not change the
maximum of absolute values. -/
lemma stabilityEntry_eq (d : ℚ → ℚ) :
    stabilityEntry d = npMax (stabDomain.map (fun x => |d x|)) := by
  rw [stabilityEntry]
  apply congrArg npMax
  apply List.map_congr_left
  intro x _
  rw [neg_one_mul, abs_neg]

lemma foldl_max_zero_replicate : ∀ n : ℕ, (List.replicate n (0 : ℚ)).foldl max 0 = 0 := by
  intro n
  induction n with
  | zero => rfl
  | succ n ih => rw [List.replicate_succ, List.foldl_cons, max_self]; exact ih

lemma npMax_replicate_zero (n : ℕ) : npMax (List.replicate n (0 : ℚ)) = 0 := by
  cases n with
  | zero => rfl
  | succ n => rw [List.replicate_succ, npMax, foldl_max_zero_replicate]

lemma npMax_map_zero (l : List ℚ) (f : ℚ → ℚ) (hf : ∀ x, f x = 0) :
    npMax (l.map f) = 0 := by
  have h : l.map f = List.replicate l.length 0 := by
    rw [show f = fun _ => (0 : ℚ) from funext hf, List.map_const']
  rw [h, npMax_replicate_zero]

lemma stabilityEntry_zero : stabilityEntry (fun _ => (0 : ℚ)) = 0 := by
  rw [stabilityEntry]
  exact npMax_map_zero stabDomain _ (fun x => by simp)

/-! ### Concrete example networks used in the claim-level theorems -/

/-- Adjacency of a 2-node network: an edge of weight 2 from node 0 into
node 1 and an edge of weight 1 from node 1 back into node 0
(`A[i,j]` = weight of the edge from `j` to `i`). -/
def exA2 : ℕ → ℕ → ℕ := fun i j =>
  if i = 1 ∧ j = 0 then 2 else if i = 0 ∧ j = 1 then 1 else 0

/-- The 2-node network with `exA2` and default labels. -/
def gEx2 : Graph :=
  { n := 2, A := exA2, labels := ["0", "1"],
    labeler := zipIdxFrom 0 ["0", "1"], indexer := zipValIdx 0 ["0", "1"],
    origin := zipValIdx 0 ["0", "1"], F := none }

lemma gEx2_init : graphInit 2 exA2 none none none = .ok gEx2 := rfl

/-- Adjacency of a 3-node network: weight-1 edges `0 → 1` (into the
specialized set for base `[0]`), `1 → 2` (inside the specialized set)
and `2 → 0` (back into the base). -/
def exA3 : ℕ → ℕ → ℕ := fun i j =>
  if i = 1 ∧ j = 0 then 1 else if i = 2 ∧ j = 1 then 1 else
    if i = 0 ∧ j = 2 then 1 else 0

/-- The 3-node network with `exA3` and default labels. -/
def gEx3 : Graph :=
  { n := 3, A := exA3, labels := ["0", "1", "2"],
    labeler := zipIdxFrom 0 ["0", "1", "2"], indexer := zipValIdx 0 ["0", "1", "2"],
    origin := zipValIdx 0 ["0", "1", "2"], F := none }

lemma gEx3_init : graphInit 3 exA3 none none none = .ok gEx3 := rfl

/-- Adjacency of the specification's concrete boundary scenario: a
3-node network with edges `1 → 0` of weight 2 and `2 → 0` of weight 1
only (no edges out of node 0). -/
def exASpec : ℕ → ℕ → ℕ := fun i j =>
  if i = 0 ∧ j = 1 then 2 else if i = 0 ∧ j = 2 then 1 else 0

/-- The boundary-scenario network with default labels. -/
def gSpec3 : Graph :=
  { n := 3, A := exASpec, labels := ["0", "1", "2"],
    labeler := zipIdxFrom 0 ["0", "1", "2"], indexer := zipValIdx 0 ["0", "1", "2"],
    origin := zipValIdx 0 ["0", "1", "2"], F := none }

/-- A 1-node network whose only label contains a `'.'`. -/
def gDot : Graph :=
  { n := 1, A := fun _ _ => 0, labels := ["a.b"],
    labeler := zipIdxFrom 0 ["a.b"], indexer := zipValIdx 0 ["a.b"],
    origin := zipValIdx 0 ["a.b"], F := none }

lemma gDot_init : graphInit 1 (fun _ _ => 0) (some ["a.b"]) none none = .ok gDot := rfl

/-- The 1-node zero network with default labels and no functional
matrix. -/
def g1 : Graph :=
  { n := 1, A := fun _ _ => 0, labels := ["0"],
    labeler := zipIdxFrom 0 ["0"], indexer := zipValIdx 0 ["0"],
    origin := zipValIdx 0 ["0"], F := none }

lemma g1_init : graphInit 1 (fun _ _ => 0) none none none = .ok g1 := rfl

/-! ### Claim-level theorems -/

/-- C2.  For every valid base selection, `specialize(base)` returns a
network with `n = |base| + num_copies · |spec_set|`, where
`num_copies = num_in · num_out` (the source's `int(...)` truncation is
exact on natural-number weights, so this agrees with the claimed
`floor`), `num_in`/`num_out` are the weight sums of the two cross
blocks, and the base-base sub-block of the result equals the original
base-base sub-block `A[base[i], base[j]]` unchanged. -/
theorem C2_size_and_base_block (g : Graph) (base : List ℕ) (hwf : WF g)
    (hne : base ≠ []) (hval : ∀ i ∈ base, i < g.n) (hlen : base.length ≤ g.n) :
    ∃ res post, specialize g (base.map Ident.idx) = .ok (res, post) ∧
      numCopies g (base.map Ident.idx) =
        numIn g (base.map Ident.idx) * numOut g (base.map Ident.idx) ∧
      res.n = base.length +
        numCopies g (base.map Ident.idx) * (specSet g (base.map Ident.idx)).length ∧
      ∀ i j bi bj, base[i]? = some bi → base[j]? = some bj →
        res.A i j = g.A bi bj := by
  refine ⟨_, _, specialize_eq g base hwf hne hval hlen, rfl, ?_, ?_⟩
  · rw [specN, List.length_map]
  · intro i j bi bj hbi hbj
    have hi : i < base.length := (List.getElem?_eq_some.mp hbi).1
    have hj : j < base.length := (List.getElem?_eq_some.mp hbj).1
    show specS g (base.map Ident.idx) i j = g.A bi bj
    rw [specS_base g (base.map Ident.idx) i j
      (by rw [List.length_map]; exact hi) (by rw [List.length_map]; exact hj)]
    exact specPA_base g base i j bi bj hbi hbj

/-- C2 witness: the 3-node example with base `[0]` (one inbound and one
outbound boundary edge, hence one copy). -/
theorem C2_witness :
    ∃ res post, specialize gEx3 (([0] : List ℕ).map Ident.idx) = .ok (res, post) ∧
      numCopies gEx3 (([0] : List ℕ).map Ident.idx) =
        numIn gEx3 (([0] : List ℕ).map Ident.idx) *
          numOut gEx3 (([0] : List ℕ).map Ident.idx) ∧
      res.n = ([0] : List ℕ).length +
        numCopies gEx3 (([0] : List ℕ).map Ident.idx) *
          (specSet gEx3 (([0] : List ℕ).map Ident.idx)).length ∧
      ∀ i j bi bj, ([0] : List ℕ)[i]? = some bi → ([0] : List ℕ)[j]? = some bj →
        res.A i j = gEx3.A bi bj :=
  C2_size_and_base_block gEx3 [0] (by decide) (by decide) (by decide) (by decide)

/-- C6.  If the base set covers every node, or the cross-boundary
weight sum is zero in either direction, then `num_copies = 0` and the
result is exactly the (permuted) base-base block: `n = |base|`, no copy
labels, the base-base entries preserved, and every entry outside the
base block zero. -/
theorem C6_degenerate_cases (g : Graph) (base : List ℕ) (hwf : WF g)
    (hne : base ≠ []) (hval : ∀ i ∈ base, i < g.n) (hlen : base.length ≤ g.n)
    (hdeg : (∀ i < g.n, i ∈ base) ∨ numIn g (base.map Ident.idx) = 0 ∨
      numOut g (base.map Ident.idx) = 0) :
    numCopies g (base.map Ident.idx) = 0 ∧
    ∃ res post, specialize g (base.map Ident.idx) = .ok (res, post) ∧
      res.n = base.length ∧ res.labels.length = base.length ∧
      (∀ i j bi bj, base[i]? = some bi → base[j]? = some bj →
        res.A i j = g.A bi bj) ∧
      (∀ i j, base.length ≤ i ∨ base.length ≤ j → res.A i j = 0) := by
  have hzero : numIn g (base.map Ident.idx) = 0 ∨ numOut g (base.map Ident.idx) = 0 := by
    rcases hdeg with hfull | h | h
    · left
      apply numIn_zero_of_specSet_nil
      apply specSet_nil_of_full
      intro i hi
      exact List.mem_map_of_mem Ident.idx (hfull i hi)
    · left; exact h
    · right; exact h
  have hnc : numCopies g (base.map Ident.idx) = 0 := by
    rw [numCopies]
    rcases hzero with h | h
    · rw [h, Nat.zero_mul]
    · rw [h, Nat.mul_zero]
  have hps : specPairs g (base.map Ident.idx) = [] := specPairs_nil _ _ hzero
  refine ⟨hnc, _, _, specialize_eq g base hwf hne hval hlen, ?_, ?_, ?_, ?_⟩
  · show specN g (base.map Ident.idx) = base.length
    rw [specN, hnc, Nat.zero_mul, Nat.add_zero, List.length_map]
  · show (newLabelsP g base).length = base.length
    have hrows : copyRowsP g base = [] := by
      rw [copyRowsP, hnc]
      rfl
    rw [newLabelsP, hrows, List.length_append, List.length_map]
    rfl
  · intro i j bi bj hbi hbj
    have hi : i < base.length := (List.getElem?_eq_some.mp hbi).1
    have hj : j < base.length := (List.getElem?_eq_some.mp hbj).1
    show specS g (base.map Ident.idx) i j = g.A bi bj
    rw [specS_no_copies g (base.map Ident.idx) hnc hps i j,
      if_pos ⟨by rw [List.length_map]; exact hi, by rw [List.length_map]; exact hj⟩]
    exact specPA_base g base i j bi bj hbi hbj
  · intro i j hout
    show specS g (base.map Ident.idx) i j = 0
    rw [specS_no_copies g (base.map Ident.idx) hnc hps i j, if_neg]
    rintro ⟨hi, hj⟩
    rw [List.length_map] at hi hj
    rcases hout with h | h
    · omega
    · omega

/-- C6 witness: the specification's own boundary scenario (3 nodes,
edges `1 → 0` weight 2 and `2 → 0` weight 1, base `[0]`): `num_in = 0`,
so `num_copies = 0` and the result is the 1-node base block. -/
theorem C6_witness :
    numCopies gSpec3 (([0] : List ℕ).map Ident.idx) = 0 ∧
    ∃ res post, specialize gSpec3 (([0] : List ℕ).map Ident.idx) = .ok (res, post) ∧
      res.n = ([0] : List ℕ).length ∧
      res.labels.length = ([0] : List ℕ).length ∧
      (∀ i j bi bj, ([0] : List ℕ)[i]? = some bi → ([0] : List ℕ)[j]? = some bj →
        res.A i j = gSpec3.A bi bj) ∧
      (∀ i j, ([0] : List ℕ).length ≤ i ∨ ([0] : List ℕ).length ≤ j →
        res.A i j = 0) :=
  C6_degenerate_cases gSpec3 [0] (by decide) (by decide) (by decide) (by decide)
    (Or.inr (Or.inl (by decide)))

/-- C7 counterexample: `iterate(k, x0)` returns a `k × n` array whose
rows are indexed `0 .. k-1`, so for `k = 1` there is no row at index
`t = k` — the claim's range `t ≤ k` includes a row that does not exist
(in the source, `t[k]` raises `IndexError`). -/
theorem C7_counterexample :
    Except.map (fun traj => (traj.length, (traj[1]?).isSome))
      (iterate g1 1 (fun _ => (1 : ℚ))) = .ok (1, false) := rfl

/-- C7 (amended: rows exist for `t < k`, not `t ≤ k`).  For a network
with no functional matrix, `iterate(k, x0)` succeeds for `k > 0`,
returns exactly `k` rows, row `t` equals `adjacency^t · x0` on all
coordinates below `n`, and row `0` is the initial condition. -/
theorem C7_amended_linear_power (g : Graph) (k t : ℕ) (x0 : ℕ → ℚ)
    (hF : g.F = none) (hk : 0 < k) (ht : t < k) :
    ∃ traj, iterate g k x0 = .ok traj ∧ traj.length = k ∧
      traj[t]? = some (linTraj g x0 t) ∧
      (∀ i < g.n, linTraj g x0 t i = matVec g.n (matPow g.n g.A t) x0 i) ∧
      (∀ i < g.n, linTraj g x0 0 i = x0 i) := by
  have hit : iterate g k x0 = .ok ((List.range k).map (linTraj g x0)) := by
    rw [iterate, hF, linearDynamics, if_neg (by omega)]
  refine ⟨_, hit, ?_, ?_, ?_, ?_⟩
  · rw [List.length_map, List.length_range]
  · rw [List.getElem?_map, List.getElem?_range ht]
    rfl
  · exact linTraj_matPow g x0 t
  · intro i hi
    simp [linTraj, hi]

/-- C7 witness: the 1-node zero network, `k = 2`, `t = 1`. -/
theorem C7_witness :
    ∃ traj, iterate g1 2 (fun _ => (1 : ℚ)) = .ok traj ∧ traj.length = 2 ∧
      traj[1]? = some (linTraj g1 (fun _ => (1 : ℚ)) 1) ∧
      (∀ i < g1.n, linTraj g1 (fun _ => (1 : ℚ)) 1 i =
        matVec g1.n (matPow g1.n g1.A 1) (fun _ => (1 : ℚ)) i) ∧
      (∀ i < g1.n, linTraj g1 (fun _ => (1 : ℚ)) 0 i = (fun _ => (1 : ℚ)) i) :=
  C7_amended_linear_power g1 2 1 (fun _ => (1 : ℚ)) rfl (by decide) (by decide)

/-- C10.  When `specialize` is called with a label-typed base list of
known labels, lines 113-115 overwrite the caller's list in place: after
the conversion every element is the numeric index of the label that
stood there, and no label value remains in the list. -/
theorem C10_base_overwritten (g : Graph) (l : List Ident) (hne : l ≠ [])
    (hlab : ∀ e ∈ l, ∃ s, e = Ident.lab s ∧ (pyGet g.indexer s).isSome) :
    ∃ l', resolveBase g l = .ok l' ∧ l'.length = l.length ∧
      (∀ (k : ℕ) (s : String), l[k]? = some (Ident.lab s) →
        ∃ i, pyGet g.indexer s = some i ∧ l'[k]? = some (Ident.idx i)) ∧
      (∀ e ∈ l', ∀ s, e ≠ Ident.lab s) := by
  obtain ⟨e₀, rest, rfl⟩ : ∃ e₀ rest, l = e₀ :: rest := by
    cases l with
    | nil => exact absurd rfl hne
    | cons a t => exact ⟨a, t, rfl⟩
  obtain ⟨s₀, he₀, -⟩ := hlab e₀ (by simp)
  subst he₀
  have hconv : resolveBase g (Ident.lab s₀ :: rest) =
      exMapM (toIndex g) (Ident.lab s₀ :: rest) := rfl
  set l := Ident.lab s₀ :: rest with hl
  have hok : exMapM (toIndex g) l = .ok (l.map (fun e =>
      match e with
      | Ident.lab s => Ident.idx ((pyGet g.indexer s).getD 0)
      | Ident.idx i => Ident.idx i)) := by
    apply exMapM_ok_map
    intro e he
    obtain ⟨s, rfl, hsome⟩ := hlab e he
    obtain ⟨i, hi⟩ := Option.isSome_iff_exists.mp hsome
    rw [toIndex, hi]
    simp [hi]
  refine ⟨_, hconv.trans hok, List.length_map _ _, ?_, ?_⟩
  · intro k s hk
    have hmem : Ident.lab s ∈ l := List.getElem?_mem hk
    obtain ⟨s', heq, hsome⟩ := hlab _ hmem
    obtain ⟨i, hi⟩ := Option.isSome_iff_exists.mp hsome
    have hss : s' = s := by
      cases heq
      rfl
    subst hss
    refine ⟨i, hi, ?_⟩
    rw [List.getElem?_map, hk]
    simp [hi]
  · intro e he s
    rcases List.mem_map.mp he with ⟨x, -, rfl⟩
    cases x <;> simp

/-- C10 witness: the 2-node example called with its two labels in
reversed order. -/
theorem C10_witness :
    ∃ l', resolveBase gEx2 [Ident.lab "1", Ident.lab "0"] = .ok l' ∧
      l'.length = ([Ident.lab "1", Ident.lab "0"] : List Ident).length ∧
      (∀ (k : ℕ) (s : String), ([Ident.lab "1", Ident.lab "0"] : List Ident)[k]? =
          some (Ident.lab s) →
        ∃ i, pyGet gEx2.indexer s = some i ∧ l'[k]? = some (Ident.idx i)) ∧
      (∀ e ∈ l', ∀ s, e ≠ Ident.lab s) :=
  C10_base_overwritten gEx2 [Ident.lab "1", Ident.lab "0"] (by decide)
    (by
      intro e he
      rcases List.mem_cons.mp he with rfl | he
      · exact ⟨"1", rfl, by decide⟩
      rcases List.mem_cons.mp he with rfl | he
      · exact ⟨"0", rfl, by decide⟩
      · simp at he)

/-- C3 counterexample: `specialize` mutates its input.  On the 2-node
example with base `[1]`, the caller's graph comes back with its label
list permuted to `["1", "0"]` (and its adjacency, labeler and indexer
permuted likewise), so the input is not left unchanged. -/
theorem C3_counterexample :
    gEx2.labels = ["0", "1"] ∧
    Except.map (fun p => p.2.labels) (specialize gEx2 [Ident.idx 1]) =
      .ok ["1", "0"] := by
  constructor
  · rfl
  · rfl

/-- C3 (amended).  `specialize` returns a brand-new network, but it
mutates its input in place: after the call the input's labels, adjacency,
labeler and indexer have been replaced by their base-first permuted
versions (`origin`, `F` and `n` are untouched).  The input is unchanged
only when the permutation happens to be the identity. -/
theorem C3_amended_mutation (g : Graph) (base : List ℕ) (hwf : WF g)
    (hne : base ≠ []) (hval : ∀ i ∈ base, i < g.n) (hlen : base.length ≤ g.n) :
    ∃ res post, specialize g (base.map Ident.idx) = .ok (res, post) ∧
      post.n = g.n ∧ post.F = g.F ∧ post.origin = g.origin ∧
      post.labels = (permNat g base).map (lblD g) ∧
      post.A = specPA g (base.map Ident.idx) ∧
      post.labeler = rebuildP g base ∧
      post.indexer = (rebuildP g base).map (fun p => (p.2, p.1)) ∧
      (∀ (k : ℕ) (bk : ℕ), base[k]? = some bk →
        post.labels[k]? = some (lblD g bk)) := by
  refine ⟨_, _, specialize_eq g base hwf hne hval hlen,
    rfl, rfl, rfl, rfl, rfl, rfl, rfl, ?_⟩
  intro k bk hk
  have hklen : k < base.length := (List.getElem?_eq_some.mp hk).1
  show (postLabelsP g base)[k]? = some (lblD g bk)
  rw [postLabelsP, List.getElem?_map, permNat, List.getElem?_append_left hklen, hk]
  rfl

/-- C3 witness: the 2-node example with base `[1]`. -/
theorem C3_witness :
    ∃ res post, specialize gEx2 (([1] : List ℕ).map Ident.idx) = .ok (res, post) ∧
      post.n = gEx2.n ∧ post.F = gEx2.F ∧ post.origin = gEx2.origin ∧
      post.labels = (permNat gEx2 [1]).map (lblD gEx2) ∧
      post.A = specPA gEx2 (([1] : List ℕ).map Ident.idx) ∧
      post.labeler = rebuildP gEx2 [1] ∧
      post.indexer = (rebuildP gEx2 [1]).map (fun p => (p.2, p.1)) ∧
      (∀ (k : ℕ) (bk : ℕ), ([1] : List ℕ)[k]? = some bk →
        post.labels[k]? = some (lblD gEx2 bk)) :=
  C3_amended_mutation gEx2 [1] (by decide) (by decide) (by decide) (by decide)

/-- C1 counterexample: with weights above 1 the number of copies
(`num_in · num_out` over weight sums) exceeds the number of
(in, out)-edge pairings, and the surplus copies receive NO cross
entries.  On the 2-node example (in-weight 2, out-weight 1, base `[0]`)
the result has 3 nodes (two copies of the one-node spec block); copy 1
(row/column 1) gets the inbound weight 2 and outbound weight 1, but
copy 2 (row/column 2) has both cross entries zero — not "exactly one
inbound and one outbound" for every copy. -/
theorem C1_counterexample :
    Except.map (fun p => (p.1.n, p.1.A 1 0, p.1.A 0 1, p.1.A 2 0, p.1.A 0 2))
      (specialize gEx2 [Ident.idx 0]) = .ok (3, 2, 1, 0, 0) := by
  rfl

/-- C1 (amended).  The fill loop enumerates `in_edges` (outer) ×
`out_edges` (inner), pairing `c` getting the next copy index; pairing
`c` writes the inbound weight at row `base_len + c·spec_len +
in_edge.row`, column `in_edge.col`, and the outbound weight at row
`out_edge.row`, column `base_len + c·spec_len + out_edge.col`; every
other cross entry of copy `c` is zero.  Copies with index at or beyond
the pairing count (which exist whenever some boundary weight exceeds 1)
have ALL cross entries zero. -/
theorem C1_amended_rewiring (g : Graph) (base : List ℕ) (hwf : WF g)
    (hne : base ≠ []) (hval : ∀ i ∈ base, i < g.n) (hlen : base.length ≤ g.n) :
    ∃ res post, specialize g (base.map Ident.idx) = .ok (res, post) ∧
      res.A = specS g (base.map Ident.idx) ∧
      specPairs g (base.map Ident.idx) =
        (inEdges g (base.map Ident.idx)).flatMap (fun ie =>
          (outEdges g (base.map Ident.idx)).map (fun oe => (ie, oe))) ∧
      (specPairs g (base.map Ident.idx)).length ≤ numCopies g (base.map Ident.idx) ∧
      (∀ (c : ℕ) (p : (ℕ × ℕ) × (ℕ × ℕ)),
        (specPairs g (base.map Ident.idx))[c]? = some p →
        p.1.1 < (specSet g (base.map Ident.idx)).length ∧
        p.1.2 < (base.map Ident.idx).length ∧
        p.2.1 < (base.map Ident.idx).length ∧
        p.2.2 < (specSet g (base.map Ident.idx)).length ∧
        res.A ((base.map Ident.idx).length +
            c * (specSet g (base.map Ident.idx)).length + p.1.1) p.1.2 =
          inGraph g (base.map Ident.idx) p.1.1 p.1.2 ∧
        inGraph g (base.map Ident.idx) p.1.1 p.1.2 ≠ 0 ∧
        res.A p.2.1 ((base.map Ident.idx).length +
            c * (specSet g (base.map Ident.idx)).length + p.2.2) =
          outGraph g (base.map Ident.idx) p.2.1 p.2.2 ∧
        outGraph g (base.map Ident.idx) p.2.1 p.2.2 ≠ 0 ∧
        (∀ r < (specSet g (base.map Ident.idx)).length,
          ∀ jj < (base.map Ident.idx).length, (r, jj) ≠ p.1 →
            res.A ((base.map Ident.idx).length +
              c * (specSet g (base.map Ident.idx)).length + r) jj = 0) ∧
        (∀ ii < (base.map Ident.idx).length,
          ∀ s < (specSet g (base.map Ident.idx)).length, (ii, s) ≠ p.2 →
            res.A ii ((base.map Ident.idx).length +
              c * (specSet g (base.map Ident.idx)).length + s) = 0)) ∧
      (∀ c : ℕ, (specPairs g (base.map Ident.idx)).length ≤ c →
        c < numCopies g (base.map Ident.idx) →
        (∀ r < (specSet g (base.map Ident.idx)).length,
          ∀ jj < (base.map Ident.idx).length,
            res.A ((base.map Ident.idx).length +
              c * (specSet g (base.map Ident.idx)).length + r) jj = 0) ∧
        (∀ ii < (base.map Ident.idx).length,
          ∀ s < (specSet g (base.map Ident.idx)).length,
            res.A ii ((base.map Ident.idx).length +
              c * (specSet g (base.map Ident.idx)).length + s) = 0)) := by
  refine ⟨_, _, specialize_eq g base hwf hne hval hlen, rfl, rfl,
    specPairs_length_le g (base.map Ident.idx), ?_, ?_⟩
  · intro c p hc
    have hpmem : p ∈ specPairs g (base.map Ident.idx) := List.getElem?_mem hc
    obtain ⟨h11, h12, hne1, h21, h22, hne2⟩ :=
      specPairs_bounds g (base.map Ident.idx) p hpmem
    refine ⟨h11, h12, h21, h22,
      specS_in_cell g (base.map Ident.idx) c p hc, hne1,
      specS_out_cell g (base.map Ident.idx) c p hc, hne2, ?_, ?_⟩
    · intro r hr jj hjj hneq
      apply specS_in_region_zero g (base.map Ident.idx) c r jj hr hjj
      intro p' hp'
      have : p' = p := by
        rw [hc] at hp'
        exact (Option.some_inj.mp hp').symm
      subst this
      exact fun h => hneq (h ▸ rfl)
    · intro ii hii s hs hneq
      apply specS_out_region_zero g (base.map Ident.idx) c ii s hii hs
      intro p' hp'
      have : p' = p := by
        rw [hc] at hp'
        exact (Option.some_inj.mp hp').symm
      subst this
      exact fun h => hneq (h ▸ rfl)
  · intro c hcge hclt
    have hnone : ∀ p', (specPairs g (base.map Ident.idx))[c]? = some p' → False := by
      intro p' hp'
      have := (List.getElem?_eq_some.mp hp').1
      omega
    constructor
    · intro r hr jj hjj
      exact specS_in_region_zero g (base.map Ident.idx) c r jj hr hjj
        (fun p' hp' => absurd hp' (fun h => hnone p' h))
    · intro ii hii s hs
      exact specS_out_region_zero g (base.map Ident.idx) c ii s hii hs
        (fun p' hp' => absurd hp' (fun h => hnone p' h))

/-- C1 witness: the 3-node example with base `[0]`, one inbound and one
outbound boundary edge of weight 1 each, so exactly one pairing and one
copy. -/
theorem C1_witness :
    ∃ res post, specialize gEx3 (([0] : List ℕ).map Ident.idx) = .ok (res, post) ∧
      res.A = specS gEx3 (([0] : List ℕ).map Ident.idx) ∧
      specPairs gEx3 (([0] : List ℕ).map Ident.idx) =
        (inEdges gEx3 (([0] : List ℕ).map Ident.idx)).flatMap (fun ie =>
          (outEdges gEx3 (([0] : List ℕ).map Ident.idx)).map (fun oe => (ie, oe))) ∧
      (specPairs gEx3 (([0] : List ℕ).map Ident.idx)).length ≤
        numCopies gEx3 (([0] : List ℕ).map Ident.idx) ∧
      (∀ (c : ℕ) (p : (ℕ × ℕ) × (ℕ × ℕ)),
        (specPairs gEx3 (([0] : List ℕ).map Ident.idx))[c]? = some p →
        p.1.1 < (specSet gEx3 (([0] : List ℕ).map Ident.idx)).length ∧
        p.1.2 < (([0] : List ℕ).map Ident.idx).length ∧
        p.2.1 < (([0] : List ℕ).map Ident.idx).length ∧
        p.2.2 < (specSet gEx3 (([0] : List ℕ).map Ident.idx)).length ∧
        res.A ((([0] : List ℕ).map Ident.idx).length +
            c * (specSet gEx3 (([0] : List ℕ).map Ident.idx)).length + p.1.1) p.1.2 =
          inGraph gEx3 (([0] : List ℕ).map Ident.idx) p.1.1 p.1.2 ∧
        inGraph gEx3 (([0] : List ℕ).map Ident.idx) p.1.1 p.1.2 ≠ 0 ∧
        res.A p.2.1 ((([0] : List ℕ).map Ident.idx).length +
            c * (specSet gEx3 (([0] : List ℕ).map Ident.idx)).length + p.2.2) =
          outGraph gEx3 (([0] : List ℕ).map Ident.idx) p.2.1 p.2.2 ∧
        outGraph gEx3 (([0] : List ℕ).map Ident.idx) p.2.1 p.2.2 ≠ 0 ∧
        (∀ r < (specSet gEx3 (([0] : List ℕ).map Ident.idx)).length,
          ∀ jj < (([0] : List ℕ).map Ident.idx).length, (r, jj) ≠ p.1 →
            res.A ((([0] : List ℕ).map Ident.idx).length +
              c * (specSet gEx3 (([0] : List ℕ).map Ident.idx)).length + r) jj = 0) ∧
        (∀ ii < (([0] : List ℕ).map Ident.idx).length,
          ∀ s < (specSet gEx3 (([0] : List ℕ).map Ident.idx)).length, (ii, s) ≠ p.2 →
            res.A ii ((([0] : List ℕ).map Ident.idx).length +
              c * (specSet gEx3 (([0] : List ℕ).map Ident.idx)).length + s) = 0)) ∧
      (∀ c : ℕ, (specPairs gEx3 (([0] : List ℕ).map Ident.idx)).length ≤ c →
        c < numCopies gEx3 (([0] : List ℕ).map Ident.idx) →
        (∀ r < (specSet gEx3 (([0] : List ℕ).map Ident.idx)).length,
          ∀ jj < (([0] : List ℕ).map Ident.idx).length,
            res.A ((([0] : List ℕ).map Ident.idx).length +
              c * (specSet gEx3 (([0] : List ℕ).map Ident.idx)).length + r) jj = 0) ∧
        (∀ ii < (([0] : List ℕ).map Ident.idx).length,
          ∀ s < (specSet gEx3 (([0] : List ℕ).map Ident.idx)).length,
            res.A ii ((([0] : List ℕ).map Ident.idx).length +
              c * (specSet gEx3 (([0] : List ℕ).map Ident.idx)).length + s) = 0)) :=
  C1_amended_rewiring gEx3 [0] (by decide) (by decide) (by decide) (by decide)

/-- The 2-node graph the constructor builds from the duplicate label
list `["a", "a"]` (the second binding shadows the first in both
dicts). -/
def gDup : Graph :=
  { n := 2, A := fun _ _ => 0, labels := ["a", "a"],
    labeler := zipIdxFrom 0 ["a", "a"], indexer := zipValIdx 0 ["a", "a"],
    origin := zipValIdx 0 ["a", "a"], F := none }

/-- C8 counterexample: the constructor does NOT reject duplicate
labels — `Graph(A, ["a", "a"])` succeeds (and the heterogeneous label
check passes as well), while the claim says construction must fail on
duplicates. -/
theorem C8_counterexample :
    graphInit 2 (fun _ _ => 0) (some ["a", "a"]) none none = .ok gDup ∧
    labelsArgCheck (some [PyVal.str "a", PyVal.str "a"]) 2 = .ok () :=
  ⟨rfl, rfl⟩

/-- C8 (amended).  The constructor's label validation checks only the
length and the type of the FIRST element: any nonempty length-`n`
string list is accepted, duplicates included; a wrong length raises
`ValueError`; an empty provided list with `n = 0` raises `IndexError`
(from `labels[0]`); a non-string first element raises `ValueError`
even if later elements are strings, and a string first element passes
even if later elements are not; absent labels skip validation. -/
theorem C8_amended_validation :
    (∀ (n : ℕ) (A : ℕ → ℕ → ℕ) (ls : List String), ls.length = n → ls ≠ [] →
      ∃ G, graphInit n A (some ls) none none = .ok G ∧ G.labels = ls) ∧
    (∀ (n : ℕ) (A : ℕ → ℕ → ℕ) (ls : List String), ls.length ≠ n →
      graphInit n A (some ls) none none =
        .error (.valueError "labels must be a string list of length n")) ∧
    (∀ A : ℕ → ℕ → ℕ, graphInit 0 A (some []) none none = .error Err.indexError) ∧
    (∀ (ls : List PyVal) (n : ℕ), ls.length ≠ n →
      labelsArgCheck (some ls) n =
        .error (.valueError "labels must be a string list of length n")) ∧
    (∀ (s : String) (rest : List PyVal) (n : ℕ),
      (PyVal.str s :: rest).length = n →
      labelsArgCheck (some (PyVal.str s :: rest)) n = .ok ()) ∧
    (∀ (rest : List PyVal) (n : ℕ), (PyVal.nonstr :: rest).length = n →
      labelsArgCheck (some (PyVal.nonstr :: rest)) n =
        .error (.valueError "labels must be a string list of length n")) ∧
    labelsArgCheck (some ([] : List PyVal)) 0 = .error Err.indexError ∧
    (∀ n : ℕ, labelsArgCheck none n = .ok ()) := by
  refine ⟨?_, ?_, ?_, ?_, ?_, ?_, rfl, fun _ => rfl⟩
  · intro n A ls hlen hne
    cases ls with
    | nil => exact absurd rfl hne
    | cons a t =>
      refine ⟨⟨n, A, a :: t, zipIdxFrom 0 (a :: t), zipValIdx 0 (a :: t),
        zipValIdx 0 (a :: t), none⟩, ?_, rfl⟩
      have hcond : ¬ ((a :: t).length ≠ n) := by omega
      simp only [graphInit, if_neg hcond]
      rfl
  · intro n A ls hlen
    simp only [graphInit, if_pos hlen]
    rfl
  · intro A
    rfl
  · intro ls n hlen
    simp only [labelsArgCheck, if_pos hlen]
  · intro s rest n hlen
    have hcond : ¬ ((PyVal.str s :: rest).length ≠ n) := by omega
    simp only [labelsArgCheck, if_neg hcond]
  · intro rest n hlen
    have hcond : ¬ ((PyVal.nonstr :: rest).length ≠ n) := by omega
    simp only [labelsArgCheck, if_neg hcond]

/-- C8 witness: a 2-element string list of the right length is accepted
by the constructor. -/
theorem C8_witness :
    ∃ G, graphInit 2 (fun _ _ => 0) (some ["x", "y"]) none none = .ok G ∧
      G.labels = ["x", "y"] :=
  C8_amended_validation.1 2 (fun _ _ => 0) ["x", "y"] (by decide) (by decide)

/-! ### Error-path plumbing for the precondition claim -/

lemma specialize_resolve_error (g : Graph) (l₀ : List Ident) (e : Err)
    (h : resolveBase g l₀ = .error e) : specialize g l₀ = .error e := by
  simp only [specialize, h, error_bind]

lemma specialize_too_long (g : Graph) (l₀ l : List Ident)
    (hrb : resolveBase g l₀ = .ok l) (hlong : l.length > g.n) :
    specialize g l₀ = .error (.valueError "base list is too long") := by
  simp only [specialize, hrb, ok_bind, if_pos hlong]
  rfl

lemma specialize_rebuild_error (g : Graph) (l₀ l : List Ident) (e : Err)
    (hrb : resolveBase g l₀ = .ok l) (hlen : ¬ (l.length > g.n))
    (hre : rebuildLabeler g l = .error e) : specialize g l₀ = .error e := by
  simp only [specialize, hrb, ok_bind, if_neg hlen, hre, error_bind]

/-- The labeler rebuild of line 130 raises `KeyError` as soon as some
looked-up entry of `permute` is a string, or an int missing from the
labeler dict. -/
lemma rebuildLabeler_keyError (g : Graph) (l : List Ident)
    (hex : ∃ i, i < g.n ∧
      ((∃ s, (specPermute g l)[i]? = some (Ident.lab s)) ∨
       (∃ j, (specPermute g l)[i]? = some (Ident.idx j) ∧
         pyGet g.labeler j = none))) :
    rebuildLabeler g l = .error Err.keyError := by
  rw [rebuildLabeler]
  apply exMapM_error
  · intro i hi
    have hilen : i < (specPermute g l).length :=
      lt_of_lt_of_le (List.mem_range.mp hi) (specPermute_length_ge g l)
    obtain ⟨p, hp⟩ : ∃ p, (specPermute g l)[i]? = some p :=
      ⟨_, List.getElem?_eq_getElem hilen⟩
    cases p with
    | lab s => left; simp [hp]
    | idx j =>
      cases hj : pyGet g.labeler j with
      | some s => right; exact ⟨(i, s), by simp [hp, hj]⟩
      | none => left; simp [hp, hj]
  · obtain ⟨i, hi, hcase⟩ := hex
    refine ⟨i, List.mem_range.mpr hi, ?_⟩
    rcases hcase with ⟨s, hp⟩ | ⟨j, hp, hj⟩
    · simp [hp]
    · simp [hp, hj]

/-- C5 counterexample: an unknown label in `base` makes `specialize`
raise `KeyError` (from the `indexer` dict lookup of line 115), not the
claimed `ValidationError` (= `ValueError`, the class the method's own
explicit checks raise). -/
theorem C5_counterexample :
    specialize gEx2 [Ident.lab "z"] = .error Err.keyError ∧
    ∀ msg, specialize gEx2 [Ident.lab "z"] ≠ .error (Err.valueError msg) := by
  constructor
  · rfl
  · intro msg h
    cases h

/-- C5 (amended).  The explicit `ValueError` is raised only for an
over-long base list (after label conversion); unknown labels, unknown
indices, and mixed label/index lists all fail with `KeyError` instead —
from the indexer lookup when the first element is a string, and from
the labeler rebuild of line 130 when the first element is an int (the
type check inspects only `base[0]`, so an int-headed mixed list passes
validation and fails later).  Homogeneous known bases of length at most
`n` do not fail. -/
theorem C5_amended_errors (g : Graph) (hwf : WF g) :
    (∀ base : List ℕ, base ≠ [] → (∀ i ∈ base, i < g.n) → base.length ≤ g.n →
      ∃ r, specialize g (base.map Ident.idx) = .ok r) ∧
    (∀ ls : List String, ls ≠ [] → (∀ s ∈ ls, (pyGet g.indexer s).isSome) →
      ls.length ≤ g.n → ∃ r, specialize g (ls.map Ident.lab) = .ok r) ∧
    (∀ base : List ℕ, base ≠ [] → base.length > g.n →
      specialize g (base.map Ident.idx) =
        .error (.valueError "base list is too long")) ∧
    (∀ l : List Ident, (∃ s₀ rest, l = Ident.lab s₀ :: rest) →
      (∃ e ∈ l, (∀ s, e ≠ Ident.lab s) ∨
        ∃ s, e = Ident.lab s ∧ pyGet g.indexer s = none) →
      specialize g l = .error Err.keyError) ∧
    (∀ l : List Ident, (∃ i₀ rest, l = Ident.idx i₀ :: rest) →
      l.length ≤ g.n → (∃ s, Ident.lab s ∈ l) →
      specialize g l = .error Err.keyError) ∧
    (∀ base : List ℕ, base ≠ [] → base.length ≤ g.n → (∃ i ∈ base, g.n ≤ i) →
      specialize g (base.map Ident.idx) = .error Err.keyError) := by
  refine ⟨?_, ?_, ?_, ?_, ?_, ?_⟩
  · intro base hne hval hlen
    exact ⟨_, specialize_eq g base hwf hne hval hlen⟩
  · intro ls hne hknown hlen
    have hrb : resolveBase g (ls.map Ident.lab) =
        .ok ((ls.map (fun s => (pyGet g.indexer s).getD 0)).map Ident.idx) := by
      obtain ⟨s₀, t, rfl⟩ : ∃ s₀ t, ls = s₀ :: t := by
        cases ls with
        | nil => exact absurd rfl hne
        | cons a t => exact ⟨a, t, rfl⟩
      have : resolveBase g ((s₀ :: t).map Ident.lab) =
          exMapM (toIndex g) ((s₀ :: t).map Ident.lab) := rfl
      rw [this]
      have hok : exMapM (toIndex g) ((s₀ :: t).map Ident.lab) =
          .ok (((s₀ :: t).map Ident.lab).map (fun e =>
            match e with
            | Ident.lab s => Ident.idx ((pyGet g.indexer s).getD 0)
            | Ident.idx i => Ident.idx i)) := by
        apply exMapM_ok_map
        intro e he
        rcases List.mem_map.mp he with ⟨s, hs, rfl⟩
        obtain ⟨i, hi⟩ := Option.isSome_iff_exists.mp (hknown s hs)
        rw [toIndex, hi]
        simp [hi]
      rw [hok, List.map_map, List.map_map]
      rfl
    have hval : ∀ i ∈ ls.map (fun s => (pyGet g.indexer s).getD 0), i < g.n := by
      intro i hi
      rcases List.mem_map.mp hi with ⟨s, hs, rfl⟩
      obtain ⟨j, hj⟩ := Option.isSome_iff_exists.mp (hknown s hs)
      rw [hj]
      exact (pyGet_indexer_lt g hwf s j hj).1
    refine ⟨_, specialize_resolved_eq g (ls.map Ident.lab)
      (ls.map (fun s => (pyGet g.indexer s).getD 0)) hwf hrb ?_ hval ?_⟩
    · intro h
      exact hne (List.map_eq_nil.mp h)
    · rw [List.length_map]
      exact hlen
  · intro base hne hlong
    have hrb : resolveBase g (base.map Ident.idx) = .ok (base.map Ident.idx) := by
      cases base with
      | nil => exact absurd rfl hne
      | cons b bs => rfl
    exact specialize_too_long g _ _ hrb (by rw [List.length_map]; exact hlong)
  · intro l hhead hbad
    obtain ⟨s₀, rest, rfl⟩ := hhead
    have hres : resolveBase g (Ident.lab s₀ :: rest) =
        exMapM (toIndex g) (Ident.lab s₀ :: rest) := rfl
    have herr : exMapM (toIndex g) (Ident.lab s₀ :: rest) = .error Err.keyError := by
      apply exMapM_error
      · intro e _
        cases e with
        | idx i => left; rfl
        | lab s =>
          cases hs : pyGet g.indexer s with
          | some i => right; exact ⟨Ident.idx i, by rw [toIndex, hs]⟩
          | none => left; rw [toIndex, hs]
      · obtain ⟨e, he, hcase⟩ := hbad
        refine ⟨e, he, ?_⟩
        rcases hcase with hnolab | ⟨s, rfl, hnone⟩
        · cases e with
          | lab s => exact absurd rfl (hnolab s)
          | idx i => rfl
        · rw [toIndex, hnone]
    exact specialize_resolve_error g _ _ (hres.trans herr)
  · intro l hhead hlen hmix
    obtain ⟨i₀, rest, rfl⟩ := hhead
    obtain ⟨s, hs⟩ := hmix
    obtain ⟨k, hk⟩ := List.getElem?_of_mem hs
    have hrb : resolveBase g (Ident.idx i₀ :: rest) = .ok (Ident.idx i₀ :: rest) := rfl
    apply specialize_rebuild_error g _ _ Err.keyError hrb (by omega)
    apply rebuildLabeler_keyError
    refine ⟨k, ?_, Or.inl ⟨s, ?_⟩⟩
    · have : k < (Ident.idx i₀ :: rest).length := (List.getElem?_eq_some.mp hk).1
      omega
    · rw [specPermute,
        List.getElem?_append_left (List.getElem?_eq_some.mp hk).1]
      exact hk
  · intro base hne hlen hbig
    obtain ⟨i, hi, hini⟩ := hbig
    obtain ⟨k, hk⟩ := List.getElem?_of_mem hi
    have hrb : resolveBase g (base.map Ident.idx) = .ok (base.map Ident.idx) := by
      cases base with
      | nil => exact absurd rfl hne
      | cons b bs => rfl
    apply specialize_rebuild_error g _ _ Err.keyError hrb
      (by rw [List.length_map]; omega)
    apply rebuildLabeler_keyError
    have hklen : k < base.length := (List.getElem?_eq_some.mp hk).1
    refine ⟨k, by omega, Or.inr ⟨i, ?_, ?_⟩⟩
    · rw [specPermute, List.getElem?_append_left (by rw [List.length_map]; exact hklen),
        List.getElem?_map, hk]
      rfl
    · rw [pyGet_labeler g hwf i]
      exact List.getElem?_eq_none (by rw [hwf.1]; exact hini)

/-- C5 witness: on the 2-node example, a valid index base succeeds, a
valid label base succeeds, an over-long base raises the `ValueError`,
and unknown or mixed bases raise `KeyError`. -/
theorem C5_witness :
    (∃ r, specialize gEx2 (([0] : List ℕ).map Ident.idx) = .ok r) ∧
    (∃ r, specialize gEx2 (["1"].map Ident.lab) = .ok r) ∧
    specialize gEx2 (([0, 1, 0] : List ℕ).map Ident.idx) =
      .error (.valueError "base list is too long") ∧
    specialize gEx2 [Ident.idx 0, Ident.lab "1"] = .error Err.keyError ∧
    specialize gEx2 (([5] : List ℕ).map Ident.idx) = .error Err.keyError := by
  have h := C5_amended_errors gEx2 (by decide)
  refine ⟨h.1 [0] (by decide) (by decide) (by decide),
    h.2.1 ["1"] (by decide) (by decide) (by decide),
    h.2.2.1 [0, 1, 0] (by decide) (by decide),
    h.2.2.2.2.1 [Ident.idx 0, Ident.lab "1"] ⟨0, [Ident.lab "1"], rfl⟩
      (by decide) ⟨"1", by decide⟩,
    h.2.2.2.2.2 [5] (by decide) (by decide) ⟨5, by decide, by decide⟩⟩

lemma newLabelsP_length (g : Graph) (base : List ℕ) :
    (newLabelsP g base).length = specN g (base.map Ident.idx) := by
  rw [newLabelsP, List.length_append, List.length_map, copyRowsP_flatten_length,
    specN, List.length_map]

/-- C4 counterexample: when an ORIGINAL label already contains a `'.'`,
suffix stripping truncates it and the `origin` lookup fails.  On the
1-node network labelled `"a.b"`, specializing around the full base set
returns a network on which `original(0)` raises `KeyError` instead of
producing a valid index. -/
theorem C4_counterexample :
    Except.map (fun p => (p.1.n, original p.1 0)) (specialize gDot [Ident.idx 0]) =
      .ok (1, .error Err.keyError) := rfl

/-- C4 (amended: provided every node of the input already resolves —
true in particular when the original labels contain no `'.'`).  The
`origin` dict is passed to the result unchanged (it never grows), the
result is well-formed, and every node of the result resolves through
label-suffix stripping and `origin` lookup to the same original index
as some input node.  Since the conclusion restores the hypothesis, the
property propagates through repeated specialization. -/
theorem C4_amended_resolution (g : Graph) (base : List ℕ) (hwf : WF g)
    (hne : base ≠ []) (hval : ∀ i ∈ base, i < g.n) (hlen : base.length ≤ g.n)
    (hres : ∀ i < g.n, ∃ o, original g i = .ok o) :
    ∃ res post, specialize g (base.map Ident.idx) = .ok (res, post) ∧
      res.origin = g.origin ∧ WF res ∧
      ∀ i < res.n, ∃ j o, j < g.n ∧ original g j = .ok o ∧
        original res i = .ok o := by
  refine ⟨_, _, specialize_eq g base hwf hne hval hlen, rfl, ?_, ?_⟩
  · exact ⟨newLabelsP_length g base, rfl, rfl, hwf.2.2.2⟩
  · have hWFres : WF
        ({ n := specN g (base.map Ident.idx), A := specS g (base.map Ident.idx),
           labels := newLabelsP g base,
           labeler := zipIdxFrom 0 (newLabelsP g base),
           indexer := zipValIdx 0 (newLabelsP g base),
           origin := g.origin, F := g.F } : Graph) :=
      ⟨newLabelsP_length g base, rfl, rfl, hwf.2.2.2⟩
    intro i hi
    have hiN : i < specN g (base.map Ident.idx) := hi
    have hsN : specN g (base.map Ident.idx) = base.length +
        numCopies g (base.map Ident.idx) *
          (specSet g (base.map Ident.idx)).length := by
      rw [specN, List.length_map]
    by_cases hib : i < base.length
    · -- a base node keeps its label, hence its resolution
      obtain ⟨bi, hbi⟩ : ∃ bi, base[i]? = some bi :=
        ⟨_, List.getElem?_eq_getElem hib⟩
      have hbin : bi < g.n := hval bi (List.getElem?_mem hbi)
      have hlbl : (newLabelsP g base)[i]? = some (lblD g bi) := by
        rw [newLabelsP,
          List.getElem?_append_left (by rw [List.length_map]; exact hib),
          List.getElem?_map, hbi]
        rfl
      have hlblD : (newLabelsP g base).getD i "" = lblD g bi := by
        rw [List.getD_eq_getElem?_getD, hlbl]
        rfl
      have horig : original
          ({ n := specN g (base.map Ident.idx), A := specS g (base.map Ident.idx),
             labels := newLabelsP g base,
             labeler := zipIdxFrom 0 (newLabelsP g base),
             indexer := zipValIdx 0 (newLabelsP g base),
             origin := g.origin, F := g.F } : Graph) i = original g bi := by
        rw [original_eq _ hWFres i hi, original_eq g hwf bi hbin]
        show (match pyGet g.origin (stripDot ((newLabelsP g base).getD i "")) with
          | none => Except.error Err.keyError
          | some o => Except.ok o) = _
        rw [hlblD]
      obtain ⟨o, ho⟩ := hres bi hbin
      exact ⟨bi, o, hbin, ho, horig ▸ ho⟩
    · -- a copy node carries a `.{c+1}` suffix over a spec-set label
      have hble : base.length ≤ i := by omega
      have hd : i - base.length <
          numCopies g (base.map Ident.idx) *
            (specSet g (base.map Ident.idx)).length := by
        rw [hsN] at hiN
        omega
      have hsl : 0 < (specSet g (base.map Ident.idx)).length := by
        rcases Nat.eq_zero_or_pos (specSet g (base.map Ident.idx)).length with h0 | h
        · rw [h0, Nat.mul_zero] at hd
          exact absurd hd (Nat.not_lt_zero _)
        · exact h
      obtain ⟨c, jj, hc, hj, hdecomp⟩ :
          ∃ c jj, c < numCopies g (base.map Ident.idx) ∧
            jj < (specSet g (base.map Ident.idx)).length ∧
            i - base.length = c * (specSet g (base.map Ident.idx)).length + jj :=
        ⟨(i - base.length) / (specSet g (base.map Ident.idx)).length,
         (i - base.length) % (specSet g (base.map Ident.idx)).length,
         (Nat.div_lt_iff_lt_mul hsl).mpr hd, Nat.mod_lt _ hsl,
         by rw [Nat.mul_comm]; exact (Nat.div_add_mod _ _).symm⟩
      have hrows : ∀ l ∈ copyRowsP g base,
          l.length = (specSet g (base.map Ident.idx)).length := by
        intro l hl
        rcases List.mem_map.mp hl with ⟨c', -, rfl⟩
        rw [List.length_map, List.length_range]
      obtain ⟨sj, hsjdef, hsjn⟩ :
          ∃ sj, (specSet g (base.map Ident.idx)).getD jj 0 = sj ∧ sj < g.n := by
        refine ⟨_, rfl, ?_⟩
        have hmem : (specSet g (base.map Ident.idx)).getD jj 0 ∈
            specSet g (base.map Ident.idx) := by
          rw [List.getD_eq_getElem?_getD, List.getElem?_eq_getElem hj]
          exact List.getElem_mem hj
        exact specSet_lt g _ _ hmem
      have hflat : (copyRowsP g base).flatten[
          c * (specSet g (base.map Ident.idx)).length + jj]? =
          some (lblD g sj ++ "." ++ toString (c + 1)) := by
        rw [getElem?_flatten_uniform _ (copyRowsP g base) hrows _ _ hj]
        rw [copyRowsP, List.getElem?_map, List.getElem?_range hc]
        simp only [Option.map_some']
        show ((List.range (specSet g (base.map Ident.idx)).length).map
          (fun j0 => lblD g ((specSet g (base.map Ident.idx)).getD j0 0) ++ "." ++
            toString (c + 1)))[jj]? = _
        rw [List.getElem?_map, List.getElem?_range hj]
        simp only [Option.map_some']
        rw [hsjdef]
      have hlbl : (newLabelsP g base)[i]? =
          some (lblD g sj ++ "." ++ toString (c + 1)) := by
        rw [newLabelsP,
          List.getElem?_append_right (by rw [List.length_map]; exact hble),
          List.length_map, hdecomp]
        exact hflat
      have hlblD : (newLabelsP g base).getD i "" =
          lblD g sj ++ "." ++ toString (c + 1) := by
        rw [List.getD_eq_getElem?_getD, hlbl]
        rfl
      have horig : original
          ({ n := specN g (base.map Ident.idx), A := specS g (base.map Ident.idx),
             labels := newLabelsP g base,
             labeler := zipIdxFrom 0 (newLabelsP g base),
             indexer := zipValIdx 0 (newLabelsP g base),
             origin := g.origin, F := g.F } : Graph) i = original g sj := by
        rw [original_eq _ hWFres i hi, original_eq g hwf sj hsjn]
        show (match pyGet g.origin (stripDot ((newLabelsP g base).getD i "")) with
          | none => Except.error Err.keyError
          | some o => Except.ok o) = _
        rw [hlblD, stripDot_append_dot]
      obtain ⟨o, ho⟩ := hres sj hsjn
      exact ⟨sj, o, hsjn, ho, horig ▸ ho⟩

/-- C4 witness: the 3-node example (dot-free labels) with base `[0]`. -/
theorem C4_witness :
    ∃ res post, specialize gEx3 (([0] : List ℕ).map Ident.idx) = .ok (res, post) ∧
      res.origin = gEx3.origin ∧ WF res ∧
      ∀ i < res.n, ∃ j o, j < gEx3.n ∧ original gEx3 j = .ok o ∧
        original res i = .ok o :=
  C4_amended_resolution gEx3 [0] (by decide) (by decide) (by decide) (by decide)
    (fun i hi => by
      have h3 : i = 0 ∨ i = 1 ∨ i = 2 := by
        have : i < 3 := hi
        omega
      rcases h3 with rfl | rfl | rfl
      · exact ⟨0, rfl⟩
      · exact ⟨1, rfl⟩
      · exact ⟨2, rfl⟩)

/-- C9.  `stability_matrix()` is an `n × n` matrix whose `(i,j)` entry
is the maximum over the fixed dense sample `np.linspace(-10,10,50000)`
of the absolute value of the (negated) derivative of `F[o_i, o_j]` —
the negation does not change the value since `|-x| = |x|`; and, when
the external eigensolver returns precisely the eigenvalues (the complex
roots of the characteristic polynomial) of that matrix,
`spectral_radius()` returns the maximum modulus among them. -/
theorem C9_stability_spectral (g : Graph) (dF : ℕ → ℕ → ℚ → ℚ)
    (eig : List (List ℚ) → List ℂ)
    (hres : ∀ i < g.n, ∃ o, original g i = .ok o)
    (heig : ∀ Df, stability_matrix g dF = .ok Df →
      ((eig Df : List ℂ) : Multiset ℂ) = eigsOf g.n Df) :
    ∃ Df r, stability_matrix g dF = .ok Df ∧
      Df.length = g.n ∧ (∀ row ∈ Df, row.length = g.n) ∧
      (∀ i j oi oj, i < g.n → j < g.n → original g i = .ok oi →
        original g j = .ok oj →
        (Df[i]?.bind (fun row => row[j]?)) =
          some (npMax (stabDomain.map (fun x => |dF oi oj x|)))) ∧
      spectral_radius g dF eig = .ok r ∧
      (∀ z ∈ eigsOf g.n Df, Complex.abs z ≤ r) ∧
      (eigsOf g.n Df ≠ 0 → ∃ z ∈ eigsOf g.n Df, Complex.abs z = r) := by
  obtain ⟨v, hv⟩ : ∃ v : ℕ → ℕ, ∀ i < g.n, original g i = .ok (v i) :=
    ⟨fun i => match original g i with | .ok o => o | .error _ => 0,
     fun i hi => by obtain ⟨o, ho⟩ := hres i hi; simp [ho]⟩
  have hsm : stability_matrix g dF = .ok ((List.range g.n).map (fun i =>
      (List.range g.n).map (fun j => stabilityEntry (dF (v i) (v j))))) := by
    rw [stability_matrix]
    apply exMapM_ok_map
    intro i hi
    rw [hv i (List.mem_range.mp hi)]
    simp only [ok_bind]
    have hinner : exMapM (fun j => do
        let oj ← original g j
        pure (stabilityEntry (dF (v i) oj))) (List.range g.n) =
        .ok ((List.range g.n).map (fun j => stabilityEntry (dF (v i) (v j)))) := by
      apply exMapM_ok_map
      intro j hj
      rw [hv j (List.mem_range.mp hj)]
      rfl
    rw [hinner]
  refine ⟨_, npMaxR ((eig ((List.range g.n).map (fun i =>
      (List.range g.n).map (fun j => stabilityEntry (dF (v i) (v j)))))).map
        Complex.abs), hsm, by rw [List.length_map, List.length_range],
    ?_, ?_, ?_, ?_, ?_⟩
  · intro row hrow
    rcases List.mem_map.mp hrow with ⟨i, -, rfl⟩
    rw [List.length_map, List.length_range]
  · intro i j oi oj hi hj hoi hoj
    have hvi : v i = oi := Except.ok.inj ((hv i hi).symm.trans hoi)
    have hvj : v j = oj := Except.ok.inj ((hv j hj).symm.trans hoj)
    rw [List.getElem?_map, List.getElem?_range hi]
    simp only [Option.map_some']
    show ((List.range g.n).map
        (fun j0 => stabilityEntry (dF (v i) (v j0))))[j]? = _
    rw [List.getElem?_map, List.getElem?_range hj]
    simp only [Option.map_some']
    rw [hvi, hvj, stabilityEntry_eq]
  · simp only [spectral_radius, hsm, ok_bind]
    rfl
  · intro z hz
    rw [← heig _ hsm] at hz
    have hz' : z ∈ eig ((List.range g.n).map (fun i =>
        (List.range g.n).map (fun j => stabilityEntry (dF (v i) (v j))))) :=
      Multiset.mem_coe.mp hz
    exact npMaxR_ge _ _ (List.mem_map_of_mem Complex.abs hz')
  · intro hne
    have hlne : eig ((List.range g.n).map (fun i =>
        (List.range g.n).map (fun j => stabilityEntry (dF (v i) (v j))))) ≠ [] := by
      intro h
      apply hne
      rw [← heig _ hsm, h]
      rfl
    have hmap : (eig ((List.range g.n).map (fun i =>
        (List.range g.n).map (fun j =>
          stabilityEntry (dF (v i) (v j)))))).map Complex.abs ≠ [] := by
      intro h
      exact hlne (List.map_eq_nil.mp h)
    obtain ⟨z, hzmem, hzeq⟩ := List.mem_map.mp (npMaxR_mem _ hmap)
    refine ⟨z, ?_, hzeq⟩
    rw [← heig _ hsm]
    exact Multiset.mem_coe.mpr hzmem

/-- C9 witness: the 1-node network with the zero derivative and an
eigensolver returning `[0]`, the eigenvalue multiset of the resulting
`1 × 1` zero stability matrix. -/
theorem C9_witness :
    ∃ Df r, stability_matrix g1 (fun _ _ _ => (0 : ℚ)) = .ok Df ∧
      Df.length = g1.n ∧ (∀ row ∈ Df, row.length = g1.n) ∧
      (∀ i j oi oj, i < g1.n → j < g1.n → original g1 i = .ok oi →
        original g1 j = .ok oj →
        (Df[i]?.bind (fun row => row[j]?)) =
          some (npMax (stabDomain.map
            (fun x => |(fun _ _ _ => (0 : ℚ)) oi oj x|)))) ∧
      spectral_radius g1 (fun _ _ _ => (0 : ℚ)) (fun _ => [(0 : ℂ)]) = .ok r ∧
      (∀ z ∈ eigsOf g1.n Df, Complex.abs z ≤ r) ∧
      (eigsOf g1.n Df ≠ 0 → ∃ z ∈ eigsOf g1.n Df, Complex.abs z = r) := by
  apply C9_stability_spectral g1 (fun _ _ _ => (0 : ℚ)) (fun _ => [(0 : ℂ)])
  · intro i hi
    have h1 : i = 0 := by
      have : i < 1 := hi
      omega
    subst h1
    exact ⟨0, rfl⟩
  · intro Df hDf
    have hsm1 : stability_matrix g1 (fun _ _ _ => (0 : ℚ)) =
        .ok [[stabilityEntry (fun _ => (0 : ℚ))]] := rfl
    rw [hsm1] at hDf
    injection hDf with hDf'
    subst hDf'
    have hzero : [[stabilityEntry (fun _ => (0 : ℚ))]] = [[(0 : ℚ)]] := by
      rw [stabilityEntry_zero]
    rw [hzero]
    have hmat : toMatC 1 [[(0 : ℚ)]] = 0 := by
      funext i j
      have hi0 : (i : ℕ) = 0 := by omega
      have hj0 : (j : ℕ) = 0 := by omega
      simp [toMatC, hi0, hj0]
    have hcp : Matrix.charpoly (toMatC 1 [[(0 : ℚ)]]) = Polynomial.X := by
      rw [hmat, Matrix.charpoly, Matrix.det_fin_one, Matrix.charmatrix_apply_eq]
      simp
    show ((([(0 : ℂ)] : List ℂ)) : Multiset ℂ) = eigsOf 1 [[(0 : ℚ)]]
    rw [eigsOf, hcp, Polynomial.roots_X]
    rfl

end NetSpec
